import Mathlib

/-!
# Verification of the simple-pdf document writer and content-stream builder

This file gives a shallow embedding of the core of the `simple-pdf`
repository (the PDF object graph and writer in `src/pdf/mod.rs` and
`src/pdf/types.rs`, and the color-diffing content-stream builder in
`src/graphics/mod.rs` / `src/graphics/context.rs`), together with
theorems settling the behavioural claims about it.

Modelling conventions:
* The output sink (`Output`, a wrapper around `dyn Write` tracking the
  byte position) is modelled functionally: serialization produces a
  `List Byte` and the tracked position is the length of the bytes
  produced so far.
* `Rc`-shared nodes with an interior-mutable identity cell
  (`ObjRef::Indirect { num: Cell<Option<usize>>, .. }`) are modelled by
  giving every node an explicit `NodeId` (standing for the `Rc`
  pointer identity) and keeping the cell contents in an association
  list `Assign` from ids to assigned object numbers, threaded through
  the writer state.
* Panics (`expect`/`panic!`) are modelled by `Option`: `none` is an
  aborted (panicked) write.
* `Dict` is backed by `std::collections::HashMap`, whose iteration
  order is unspecified (randomly seeded per map).  A dictionary is
  modelled as the list of its entries in insertion order, and every
  serialization function takes an extra parameter
  `ord : List (List Byte) → List (List Byte)` that reorders the
  serialized entry chunks of each dictionary, standing for the
  iteration order the hash map happened to produce in a given run.
* Floating point color components (`f64`) are modelled as `ℚ`; the
  code performs no arithmetic on them, it only carries them through to
  `to_string`.
-/

namespace SimplePdf

set_option maxRecDepth 10000

/-- One output byte. -/
abbrev Byte := Nat

/-- Byte encoding of an ASCII string (every string we emit this way is
pure ASCII, so UTF-8 encoding and code points coincide). -/
def ascii (s : String) : List Byte := s.data.map Char.toNat

/-- Identity of an `Rc` allocation of a graph node. -/
abbrev NodeId := Nat

/-- Contents of the `num : Cell<Option<usize>>` identity cells of all
nodes, keyed by node identity. -/
abbrev Assign := List (NodeId × Nat)

mutual
/-- The closed set of payload kinds implementing `PDFData`
(`src/pdf/types.rs`): `usize`, `Name`, `Vec<Rc<T>>`, `Dict`, `Stream`,
and nested graph nodes (`ObjRef<T>` itself implements `PDFData`). -/
inductive PVal where
  | pnat (n : Nat)
  | pname (s : String)
  | parr (xs : List PVal)
  | pdict (entries : List (String × PVal))
  | pstream (meta : List (String × PVal)) (bytes : List Byte)
  | pobj (o : ObjRef)

/-- `ObjRef<T>` from `src/pdf/mod.rs`: an `Indirect` node carrying an
identity cell (modelled by its `NodeId`), a generation number and a
shared value, or a `Direct` node carrying just a value. -/
inductive ObjRef where
  | direct (v : PVal)
  | indirect (id : NodeId) (gen : Nat) (v : PVal)
end

/-- The shared value held by a node (`Deref for ObjRef`). -/
def ObjRef.val : ObjRef → PVal
  | .direct v => v
  | .indirect _ _ v => v

/-- `ObjRef::is_indirect`. -/
def ObjRef.isIndirect : ObjRef → Bool
  | .direct _ => false
  | .indirect _ _ _ => true

/-- `ObjError` from `src/pdf/mod.rs`. -/
inductive ObjError where
  | alreadyAssigned
  | directObject
deriving DecidableEq, Repr

/-- `ObjRef::assign_num` (`src/pdf/mod.rs` lines 160-172).  The Rust
method mutates the node's identity cell and returns a `Result`; here
it returns the result together with the (possibly updated) cell
contents.  A `Direct` node yields `DirectObject`; an `Indirect` node
whose cell is already set yields `AlreadyAssigned`; otherwise the cell
is set to the new number. -/
def ObjRef.assignNum (σ : Assign) : ObjRef → Nat → Except ObjError Unit × Assign
  | .direct _, _ => (.error .directObject, σ)
  | .indirect id _ _, newNum =>
    match σ.lookup id with
    | some _ => (.error .alreadyAssigned, σ)
    | none => (.ok (), (id, newNum) :: σ)

mutual
/-- Modelled from the spec: `dependent_objects` is called on every
registered node in `PDFWrite::add_object` but its definition is not
part of the sources under `src/`; the spec describes it as the node
exposing "its set of directly-nested indirect dependencies so a graph
walk can discover transitive reachability".  `PVal.deps v` collects
the topmost indirect nodes nested in the value `v` (looking through
direct wrappers, and stopping at each indirect node, whose own
dependencies are found by the recursive walk of `add_object`). -/
def PVal.deps : PVal → List ObjRef
  | .pnat _ => []
  | .pname _ => []
  | .parr xs => PVal.depsList xs
  | .pdict es => PVal.depsPairs es
  | .pstream meta _ => PVal.depsPairs meta
  | .pobj (.direct v) => PVal.deps v
  | .pobj (.indirect id g v) => [.indirect id g v]

/-- Dependencies of a list of values, in order. -/
def PVal.depsList : List PVal → List ObjRef
  | [] => []
  | v :: vs => PVal.deps v ++ PVal.depsList vs

/-- Dependencies of the values of a list of dictionary entries. -/
def PVal.depsPairs : List (String × PVal) → List ObjRef
  | [] => []
  | (_, v) :: es => PVal.deps v ++ PVal.depsPairs es
end

/-- Modelled from the spec: the dependencies a node reports are the
directly-nested indirect nodes of its value. -/
def ObjRef.dependentObjects (o : ObjRef) : List ObjRef := PVal.deps o.val

/-- `Trailer` from `src/pdf/mod.rs`. -/
structure Trailer where
  size : Option Nat
  root : Option ObjRef
  info : Option PVal
  idPair : Option (String × String)

/-- `Trailer::new`. -/
def Trailer.new : Trailer := { size := none, root := none, info := none, idPair := none }

/-- `PDFWrite` from `src/pdf/mod.rs`: the write list of registered
nodes, the next-identity counter, the trailer, and (implicitly, via
`Assign`) the contents of all identity cells.  The output sink held by
the Rust struct is modelled functionally at `PDFWrite.write`. -/
structure PDFWrite where
  objects : List ObjRef
  curNum : Nat
  assign : Assign
  trailer : Trailer

/-- `PDFWrite::new`: empty write list, counter starting at 1 (object
number 0 is reserved), fresh trailer. -/
def PDFWrite.new : PDFWrite :=
  { objects := [], curNum := 1, assign := [], trailer := Trailer.new }

/-- The non-recursive part of `PDFWrite::add_object`: try to assign
the next number to the node; on success push it onto the write list
and advance the counter; both error cases are silently swallowed. -/
def PDFWrite.step (s : PDFWrite) (o : ObjRef) : PDFWrite :=
  match ObjRef.assignNum s.assign o s.curNum with
  | (Except.ok _, σ) =>
    { s with assign := σ, objects := s.objects ++ [o], curNum := s.curNum + 1 }
  | (Except.error _, σ) => { s with assign := σ }

mutual
/-- `PDFWrite::add_object` (`src/pdf/mod.rs` lines 222-235): the
assignment step followed by recursive registration of every reported
dependency.  The Rust recursion `for obj in o.dependent_objects() {
self.add_object(obj) }` is realised as a structural walk of the node's
value that calls `addObject` at each directly-nested indirect node;
`addObject_eq_foldl_deps` below proves the walk equal to the literal
fold over `dependent_objects`. -/
def PDFWrite.addObject : PDFWrite → ObjRef → PDFWrite
  | s, .direct v => PDFWrite.walkVal (PDFWrite.step s (.direct v)) v
  | s, .indirect id g v => PDFWrite.walkVal (PDFWrite.step s (.indirect id g v)) v

/-- Registration walk over a value: recurse through containers and
direct wrappers, and register each directly-nested indirect node. -/
def PDFWrite.walkVal : PDFWrite → PVal → PDFWrite
  | s, .pnat _ => s
  | s, .pname _ => s
  | s, .parr xs => PDFWrite.walkList s xs
  | s, .pdict es => PDFWrite.walkPairs s es
  | s, .pstream meta _ => PDFWrite.walkPairs s meta
  | s, .pobj (.direct v) => PDFWrite.walkVal s v
  | s, .pobj (.indirect id g v) => PDFWrite.addObject s (.indirect id g v)

/-- Registration walk over a list of values. -/
def PDFWrite.walkList : PDFWrite → List PVal → PDFWrite
  | s, [] => s
  | s, v :: vs => PDFWrite.walkList (PDFWrite.walkVal s v) vs

/-- Registration walk over dictionary entries. -/
def PDFWrite.walkPairs : PDFWrite → List (String × PVal) → PDFWrite
  | s, [] => s
  | s, (_, v) :: es => PDFWrite.walkPairs (PDFWrite.walkVal s v) es
end

/-- `PDFWrite::add_object` returns the node it was given. -/
def PDFWrite.addObjectRet (s : PDFWrite) (o : ObjRef) : ObjRef × PDFWrite :=
  (o, s.addObject o)

/-- `PDFWrite::create_root` (`src/pdf/mod.rs` lines 243-251): panics
(`none`) if a root is already set; otherwise wraps the value in a
fresh indirect node with generation 0 (freshness of the `Rc`
allocation is modelled by the caller-supplied `id`), registers it and
points the trailer root at it. -/
def PDFWrite.createRoot (s : PDFWrite) (id : NodeId) (v : PVal) : Option (ObjRef × PDFWrite) :=
  match s.trailer.root with
  | some _ => none
  | none =>
    let o : ObjRef := .indirect id 0 v
    let s2 := s.addObject o
    some (o, { s2 with trailer := { s2.trailer with root := some o } })

/-! ## Serialization (`PDFData::write` implementations and the writer pipeline) -/

/-- One cross-reference record: `(usize, usize, usize, bool)` =
(byte offset, object number, generation, free flag). -/
structure CrtEntry where
  offset : Nat
  num : Nat
  gen : Nat
  free : Bool
deriving DecidableEq, Repr

/-- `CRT` from `src/pdf/mod.rs`: the entry list and the running
`size` maximum. -/
structure CRT where
  entries : List CrtEntry
  size : Nat
deriving DecidableEq, Repr

/-- `CRT::new`: seeded with the implicit free record for object 0
(offset 0, number 0, generation 65535, free), `size` starting at 0. -/
def CRT.new : CRT := { entries := [⟨0, 0, 65535, true⟩], size := 0 }

/-- `CRT::add_entry`: push the record and update the running maximum
of object numbers. -/
def CRT.addEntry (c : CRT) (offset num gen : Nat) (free : Bool) : CRT :=
  { entries := c.entries ++ [⟨offset, num, gen, free⟩],
    size := if num > c.size then num else c.size }

/-- `CRT::get_size`: the running maximum object number (note: not the
maximum plus one). -/
def CRT.getSize (c : CRT) : Nat := c.size

/-- Rust's `{:0w}` zero-padded decimal formatting of a `usize`: the
decimal digits, left-padded with `'0'` up to width `w` (never
truncated). -/
def fmtPad (w : Nat) (n : Nat) : String :=
  ⟨List.replicate (w - (Nat.repr n).length) '0' ++ (Nat.repr n).data⟩

/-- One cross-reference line, `"{:010} {:05} {} \n"` with the offset,
the generation and the `f`/`n` free flag. -/
def crtLine (e : CrtEntry) : List Byte :=
  ascii (fmtPad 10 e.offset) ++ ascii " " ++ ascii (fmtPad 5 e.gen) ++ ascii " " ++
    (if e.free then ascii "f" else ascii "n") ++ ascii " \n"

/-- `CRT::write_part`: the subsection header `"start count\n"`
followed by one line per entry. -/
def CRT.writePart (entries : List CrtEntry) (startNum : Nat) : List Byte :=
  ascii (Nat.repr startNum ++ " " ++ Nat.repr entries.length ++ "\n") ++
    (entries.map crtLine).flatten

/-- The entry list sorted by object number (`sort_by_key` is a stable
sort by key; `insertionSort` is a stable sort). -/
def CRT.sortedEntries (c : CRT) : List CrtEntry :=
  c.entries.insertionSort (fun a b => a.num ≤ b.num)

/-- `CRT::write`: `"xref\n"`, then the entries sorted by object
number, written as a single subsection starting at 0. -/
def CRT.writeBytes (c : CRT) : List Byte :=
  ascii "xref\n" ++ CRT.writePart c.sortedEntries 0

/-- Serialized form of one dictionary: `"<<\n"`, the per-entry chunks
in the order the `HashMap` iteration produced (`ord` reorders the
chunks built in insertion order), then `">>\n"`. -/
def dictBytes (ord : List (List Byte) → List (List Byte)) (chunks : List (List Byte)) : List Byte :=
  ascii "<<\n" ++ (ord chunks).flatten ++ ascii ">>\n"

mutual
/-- `PDFData::write` over the payload kinds of `src/pdf/types.rs` and
the `ObjRef` instance of `src/pdf/mod.rs`.  `none` is a panic.
`ord` models the `HashMap` iteration order of every dictionary. -/
def PVal.write (ord : List (List Byte) → List (List Byte)) (σ : Assign) : PVal → Option (List Byte)
  | .pnat n => some (ascii (Nat.repr n))
  | .pname s => some (ascii ("/" ++ s))
  | .parr xs =>
    match PVal.writeList ord σ xs with
    | none => none
    | some bs => some (ascii "[" ++ (List.intersperse (ascii " ") bs).flatten ++ ascii "]")
  | .pdict es =>
    match PVal.writePairs ord σ es with
    | none => none
    | some cs => some (dictBytes ord cs)
  | .pstream meta bytes =>
    match PVal.writePairs ord σ meta with
    | none => none
    | some cs => some (dictBytes ord cs ++ ascii "stream\n" ++ bytes ++ ascii "\nendstream\n")
  | .pobj o => PVal.writeObjRef ord σ o

/-- `PDFData for ObjRef` (`src/pdf/mod.rs` lines 136-145): a direct
node writes its value inline; an indirect node writes the reference
token `"num gen R"`, panicking (`none`) if no number is assigned. -/
def PVal.writeObjRef (ord : List (List Byte) → List (List Byte)) (σ : Assign) : ObjRef → Option (List Byte)
  | .direct v => PVal.write ord σ v
  | .indirect id gen _ =>
    (σ.lookup id).map (fun n => ascii (Nat.repr n ++ " " ++ Nat.repr gen ++ " R"))

/-- `Vec<Rc<T>>` element serialization, in order. -/
def PVal.writeList (ord : List (List Byte) → List (List Byte)) (σ : Assign) : List PVal → Option (List (List Byte))
  | [] => some []
  | v :: vs =>
    match PVal.write ord σ v with
    | none => none
    | some b =>
      match PVal.writeList ord σ vs with
      | none => none
      | some bs => some (b :: bs)

/-- Dictionary entry chunks in insertion order: for each entry the
key (a `Name`, written `"/key"`), a space, the value, `"\n"`. -/
def PVal.writePairs (ord : List (List Byte) → List (List Byte)) (σ : Assign) : List (String × PVal) → Option (List (List Byte))
  | [] => some []
  | (k, v) :: es =>
    match PVal.write ord σ v with
    | none => none
    | some b =>
      match PVal.writePairs ord σ es with
      | none => none
      | some cs => some ((ascii ("/" ++ k) ++ ascii " " ++ b ++ ascii "\n") :: cs)
end

/-- The `"num gen obj\n" value "endobj\n"` frame of one indirect
object body. -/
def chunkOf (n gen : Nat) (vb : List Byte) : List Byte :=
  ascii (Nat.repr n ++ " " ++ Nat.repr gen ++ " obj\n") ++ vb ++ ascii "endobj\n"

/-- `ObjRef::write_obj` (`src/pdf/mod.rs` lines 147-159): a direct
node panics; an indirect node records an in-use cross-reference entry
at the current output position (panicking if no number is assigned),
then writes its framed body.  Returns the updated accumulator and the
bytes written. -/
def ObjRef.writeObj (ord : List (List Byte) → List (List Byte)) (σ : Assign) (o : ObjRef)
    (crt : CRT) (pos : Nat) : Option (CRT × List Byte) :=
  match o with
  | .direct _ => none
  | .indirect id gen v =>
    match σ.lookup id with
    | none => none
    | some n =>
      match PVal.write ord σ v with
      | none => none
      | some vb => some (crt.addEntry pos n gen false, chunkOf n gen vb)

/-- The loop of `PDFWrite::write` over the registered nodes, in
registration order, threading the accumulator and the output. -/
def writeObjs (ord : List (List Byte) → List (List Byte)) (σ : Assign) :
    List ObjRef → CRT → List Byte → Option (CRT × List Byte)
  | [], crt, out => some (crt, out)
  | o :: os, crt, out =>
    match ObjRef.writeObj ord σ o crt out.length with
    | none => none
    | some (crt2, chunk) => writeObjs ord σ os crt2 (out ++ chunk)

/-- The fixed format header `"%PDF-1.4\n%����\n"`: the ASCII part,
the UTF-8 bytes of the four binary-marker characters as they appear
in the source literal, and the final newline. -/
def headerBytes : List Byte :=
  ascii "%PDF-1.4\n%" ++
    [239, 191, 189, 239, 191, 189, 239, 191, 189, 239, 191, 189] ++ ascii "\n"

/-- The entry list of the trailer dictionary (`Trailer::write`):
`Size` (panicking if unset), `Root` (panicking if unset, serialized
as the reference token), then optionally `Info` and `ID`.  Each entry
value is already serialized. -/
def Trailer.entriesBytes (ord : List (List Byte) → List (List Byte)) (σ : Assign) (t : Trailer) :
    Option (List (String × List Byte)) :=
  match t.size, t.root with
  | some sz, some r =>
    match PVal.writeObjRef ord σ r with
    | none => none
    | some rb =>
      let base := [("Size", ascii (Nat.repr sz)), ("Root", rb)]
      match t.info with
      | some i =>
        match PVal.write ord σ i with
        | none => none
        | some ib =>
          match t.idPair with
          | some p => some (base ++ [("Info", ib)] ++ [("ID", ascii ("[" ++ p.1 ++ ", " ++ p.2 ++ "]"))])
          | none => some (base ++ [("Info", ib)])
      | none =>
        match t.idPair with
        | some p => some (base ++ [("ID", ascii ("[" ++ p.1 ++ ", " ++ p.2 ++ "]"))])
        | none => some base
  | _, _ => none

/-- `Trailer::write` (`src/pdf/mod.rs` lines 288-303): `"trailer\n"`
followed by the dictionary of the trailer entries; panics (`none`) if
`Size` or `Root` is unset. -/
def Trailer.writeBytes (ord : List (List Byte) → List (List Byte)) (σ : Assign) (t : Trailer) :
    Option (List Byte) :=
  match Trailer.entriesBytes ord σ t with
  | none => none
  | some es =>
    some (ascii "trailer\n" ++
      dictBytes ord (es.map (fun p => ascii ("/" ++ p.1) ++ ascii " " ++ p.2 ++ ascii "\n")))

/-- `PDFWrite::write` (`src/pdf/mod.rs` lines 252-264): header, the
registered nodes in registration order, the trailer `Size` set to
`crt.get_size()`, the cross-reference section at the recorded
`startxref` position, the trailer, and `"startxref\n<pos>\n%%EOF"`. -/
def PDFWrite.write (ord : List (List Byte) → List (List Byte)) (s : PDFWrite) : Option (List Byte) :=
  match writeObjs ord s.assign s.objects CRT.new headerBytes with
  | none => none
  | some (crt, out1) =>
    let t := { s.trailer with size := some crt.getSize }
    let startxref := out1.length
    let out2 := out1 ++ crt.writeBytes
    match Trailer.writeBytes ord s.assign t with
    | none => none
    | some tb =>
      some (out2 ++ tb ++ ascii "startxref\n" ++ ascii (Nat.repr startxref) ++ ascii "\n%%EOF")

/-- The identity iteration-order strategy (a run in which every hash
map happens to iterate in insertion order). -/
def ordId : List (List Byte) → List (List Byte) := fun l => l

/-- The reversing iteration-order strategy (a run in which every hash
map happens to iterate in reverse insertion order). -/
def ordRev : List (List Byte) → List (List Byte) := fun l => l.reverse

/-! ## Graphics state and the content-stream color diffing
(`src/graphics/mod.rs` lines 32-42 and 200-290, and the
pattern-extended `Color` of `src/graphics/context.rs` lines 149-218) -/

/-- `Color`: device gray, RGB, CMYK (components are `f64` in the
source, modelled as `ℚ` since no arithmetic is performed on them), or
a pattern reference (a name naming the pattern resource and the
identity of its stream object). -/
inductive Color where
  | deviceGray (g : ℚ)
  | deviceRGB (r g b : ℚ)
  | deviceCMYK (c m y k : ℚ)
  | pattern (name : String) (res : NodeId)
deriving DecidableEq, Repr

/-- The kind of a color: `std::mem::discriminant`. -/
inductive ColorKind where
  | gray
  | rgb
  | cmyk
  | pat
deriving DecidableEq, Repr

/-- `std::mem::discriminant` of a `Color`. -/
def Color.kind : Color → ColorKind
  | .deviceGray _ => .gray
  | .deviceRGB _ _ _ => .rgb
  | .deviceCMYK _ _ _ _ => .cmyk
  | .pattern _ _ => .pat

/-- The color-space name written by the color-space-selection arm of
`Color::write`. -/
def Color.spaceName : Color → String
  | .deviceGray _ => "DeviceGray"
  | .deviceRGB _ _ _ => "DeviceRGB"
  | .deviceCMYK _ _ _ _ => "DeviceCMYK"
  | .pattern _ _ => "Pattern"

/-- The operand tokens written by the color-set arm of
`Color::write`: the components via `to_string`, or the pattern name
(a `Name`, displayed `"/name"`). -/
def Color.ops : Color → List String
  | .deviceGray g => [toString g]
  | .deviceRGB r g b => [toString r, toString g, toString b]
  | .deviceCMYK c m y k => [toString c, toString m, toString y, toString k]
  | .pattern n _ => ["/" ++ n]

/-- One content-stream command relevant to color synchronization: the
color-space selection (`cs`/`CS`, the flag telling the stroke channel
from the fill channel) or the numeric color set (`scn`/`SCN`). -/
inductive Cmd where
  | setColorspace (space : String) (stroke : Bool)
  | setColor (ops : List String) (stroke : Bool)
deriving DecidableEq, Repr

/-- `Color::write` (`src/graphics/mod.rs` lines 233-289 /
`src/graphics/context.rs` lines 183-218): emit a color-space
selection command iff the discriminant of the new color differs from
the discriminant of the previous color; then always emit the
color-set command with the new operands. -/
def Color.write (self prev : Color) (stroke : Bool) : List Cmd :=
  (if self.kind = prev.kind then [] else [.setColorspace self.spaceName stroke]) ++
    [.setColor self.ops stroke]

/-- The color channels of `GraphicState` (`src/graphics/mod.rs` lines
9-18; the other fields are unit placeholders in the source). -/
structure GraphicState where
  fill : Color
  stroke : Color
deriving DecidableEq, Repr

/-- `GraphicState::new`: both channels default to `DeviceGray(0.0)`. -/
def GraphicState.new : GraphicState :=
  { fill := .deviceGray 0, stroke := .deviceGray 0 }

/-- The color interface of a drawable (`Graphic::fill_color` /
`Graphic::stroke_color`): the fill color if filled, the stroke color
if stroked. -/
structure Drawable where
  fillColor : Option Color
  strokeColor : Option Color

/-- `GraphicState::update` (`src/graphics/mod.rs` lines 32-42): if
the drawable reports a fill color, write it against the current fill
and make it current; then likewise for the stroke channel.  Returns
the new state and the commands appended to the stream. -/
def GraphicState.update (s : GraphicState) (d : Drawable) : GraphicState × List Cmd :=
  let fillStep :=
    match d.fillColor with
    | some c => ({ s with fill := c }, Color.write c s.fill false)
    | none => (s, [])
  let s1 := fillStep.1
  let strokeStep :=
    match d.strokeColor with
    | some c => ({ s1 with stroke := c }, Color.write c s1.stroke true)
    | none => (s1, [])
  (strokeStep.1, fillStep.2 ++ strokeStep.2)

/-- `GraphicContext::render` folded over a sequence of drawables: the
color-synchronization commands appended to the single content stream,
in insertion order. -/
def renderAll : GraphicState → List Drawable → GraphicState × List Cmd
  | s, [] => (s, [])
  | s, d :: ds =>
    let step := GraphicState.update s d
    let rest := renderAll step.1 ds
    (rest.1, step.2 ++ rest.2)

/-! ## Registration traces and reachable identities -/

mutual
/-- The nodes on which `add_object` attempts an identity assignment
during `addObject o`, in order: the node itself, then recursively the
visits of every reported dependency. -/
def visitObj : ObjRef → List ObjRef
  | .direct v => .direct v :: visitVal v
  | .indirect id g v => .indirect id g v :: visitVal v

/-- Visits contributed by the directly-nested indirect nodes of a
value. -/
def visitVal : PVal → List ObjRef
  | .pnat _ => []
  | .pname _ => []
  | .parr xs => visitList xs
  | .pdict es => visitPairs es
  | .pstream meta _ => visitPairs meta
  | .pobj (.direct v) => visitVal v
  | .pobj (.indirect id g v) => visitObj (.indirect id g v)

/-- Visits of a list of values. -/
def visitList : List PVal → List ObjRef
  | [] => []
  | v :: vs => visitVal v ++ visitList vs

/-- Visits of dictionary entries. -/
def visitPairs : List (String × PVal) → List ObjRef
  | [] => []
  | (_, v) :: es => visitVal v ++ visitPairs es
end

/-- The identity of an indirect node, if the node is indirect. -/
def ObjRef.idOf : ObjRef → Option NodeId
  | .direct _ => none
  | .indirect id _ _ => some id

/-- The identities of the indirect nodes in a list of nodes. -/
def idsOf (l : List ObjRef) : List NodeId := l.filterMap ObjRef.idOf

mutual
/-- Every indirect-node identity reachable from a node (the node's
own identity if it is indirect, plus everything nested transitively
in its value). -/
def ObjRef.indirectIds : ObjRef → List NodeId
  | .direct v => PVal.indirectIds v
  | .indirect id _ v => id :: PVal.indirectIds v

/-- Every indirect-node identity nested transitively in a value. -/
def PVal.indirectIds : PVal → List NodeId
  | .pnat _ => []
  | .pname _ => []
  | .parr xs => PVal.indirectIdsList xs
  | .pdict es => PVal.indirectIdsPairs es
  | .pstream meta _ => PVal.indirectIdsPairs meta
  | .pobj o => ObjRef.indirectIds o

/-- Reachable identities of a list of values. -/
def PVal.indirectIdsList : List PVal → List NodeId
  | [] => []
  | v :: vs => PVal.indirectIds v ++ PVal.indirectIdsList vs

/-- Reachable identities of dictionary entries. -/
def PVal.indirectIdsPairs : List (String × PVal) → List NodeId
  | [] => []
  | (_, v) :: es => PVal.indirectIds v ++ PVal.indirectIdsPairs es
end

/-- The identities of the nodes on the writer's write list. -/
def PDFWrite.objIds (s : PDFWrite) : List NodeId := idsOf s.objects

/-- The structural invariant of the writer state: every node on the
write list is indirect, no identity appears twice on the write list,
and an identity is on the write list exactly when its cell is
assigned. -/
def PDFWrite.Inv (s : PDFWrite) : Prop :=
  (∀ o ∈ s.objects, o.isIndirect = true) ∧
  s.objIds.Nodup ∧
  (∀ id : NodeId, id ∈ s.objIds ↔ (s.assign.lookup id).isSome = true)

/-! ## Specification shapes for the serialized layout -/

/-- Per-object serialization data: the assigned number, the
generation, and the serialized value bytes. -/
def objData (ord : List (List Byte) → List (List Byte)) (σ : Assign) : ObjRef → Option (Nat × Nat × List Byte)
  | .direct _ => none
  | .indirect id gen v =>
    match σ.lookup id with
    | none => none
    | some n =>
      match PVal.write ord σ v with
      | none => none
      | some vb => some (n, gen, vb)

/-- The framed body chunks of a list of per-object data. -/
def expChunks (ts : List (Nat × Nat × List Byte)) : List (List Byte) :=
  ts.map (fun t => chunkOf t.1 t.2.1 t.2.2)

/-- The cross-reference entries recorded for a list of per-object
data written starting at byte position `pos`: each object's entry
holds the output position reached just before its framed body. -/
def expEntries (pos : Nat) : List (Nat × Nat × List Byte) → List CrtEntry
  | [] => []
  | t :: ts => ⟨pos, t.1, t.2.1, false⟩ :: expEntries (pos + (chunkOf t.1 t.2.1 t.2.2).length) ts

/-- The running maximum of object numbers over per-object data
(`CRT::add_entry`'s size update, folded). -/
def maxNum (a : Nat) (ts : List (Nat × Nat × List Byte)) : Nat :=
  ts.foldl (fun acc t => if t.1 > acc then t.1 else acc) a

/-- Sorting relation of the cross-reference table: ascending object
number. -/
instance : IsTotal CrtEntry (fun a b => a.num ≤ b.num) :=
  ⟨fun a b => Nat.le_total a.num b.num⟩

instance : IsTrans CrtEntry (fun a b => a.num ≤ b.num) :=
  ⟨fun _ _ _ => Nat.le_trans⟩

/-! ## Concrete example documents used by the witnesses -/

/-- A document whose root is a bare number: exactly one registered
object. -/
def exDoc1 : PDFWrite :=
  ((PDFWrite.new.createRoot 100 (.pnat 7)).map Prod.snd).getD PDFWrite.new

/-- A document whose root is a two-entry dictionary. -/
def exDoc2 : PDFWrite :=
  ((PDFWrite.new.createRoot 100 (.pdict [("A", .pnat 1), ("B", .pnat 2)])).map Prod.snd).getD PDFWrite.new

/-- A second indirect node, referenced from the root of `exDoc5`. -/
def exNode2 : ObjRef := .indirect 200 0 (.pnat 9)

/-- A two-object document: the root dictionary references
`exNode2`, which is registered transitively. -/
def exDoc5 : PDFWrite :=
  ((PDFWrite.new.createRoot 100 (.pdict [("Kid", .pobj exNode2)])).map Prod.snd).getD PDFWrite.new

/-- The per-object data of `exDoc5` under insertion-order hash
iteration. -/
def exTs : List (Nat × Nat × List Byte) :=
  [(1, 0, ascii "<<\n/Kid 2 0 R\n>>\n"), (2, 0, ascii "9")]

/-! ## Machinery: the registration recursion as a fold of `step` -/

mutual
/-- `addObject` is the fold of the assignment step over the visit
trace of the node. -/
theorem addObject_eq_visit : ∀ (s : PDFWrite) (o : ObjRef),
    PDFWrite.addObject s o = (visitObj o).foldl PDFWrite.step s
  | s, .direct v => by
    rw [PDFWrite.addObject, visitObj, List.foldl_cons]
    exact walkVal_eq_visit _ v
  | s, .indirect id g v => by
    rw [PDFWrite.addObject, visitObj, List.foldl_cons]
    exact walkVal_eq_visit _ v

/-- The value walk is the fold of the assignment step over the
value's visit trace. -/
theorem walkVal_eq_visit : ∀ (s : PDFWrite) (v : PVal),
    PDFWrite.walkVal s v = (visitVal v).foldl PDFWrite.step s
  | _, .pnat _ => rfl
  | _, .pname _ => rfl
  | s, .parr xs => walkList_eq_visit s xs
  | s, .pdict es => walkPairs_eq_visit s es
  | s, .pstream meta _ => walkPairs_eq_visit s meta
  | s, .pobj (.direct v) => walkVal_eq_visit s v
  | s, .pobj (.indirect id g v) => addObject_eq_visit s (.indirect id g v)

/-- The list walk is the fold of the assignment step over the list's
visit trace. -/
theorem walkList_eq_visit : ∀ (s : PDFWrite) (xs : List PVal),
    PDFWrite.walkList s xs = (visitList xs).foldl PDFWrite.step s
  | _, [] => rfl
  | s, v :: vs => by
    rw [PDFWrite.walkList, visitList, List.foldl_append, ← walkVal_eq_visit s v]
    exact walkList_eq_visit _ vs

/-- The entry walk is the fold of the assignment step over the
entries' visit trace. -/
theorem walkPairs_eq_visit : ∀ (s : PDFWrite) (es : List (String × PVal)),
    PDFWrite.walkPairs s es = (visitPairs es).foldl PDFWrite.step s
  | _, [] => rfl
  | s, (_, v) :: es => by
    rw [PDFWrite.walkPairs, visitPairs, List.foldl_append, ← walkVal_eq_visit s v]
    exact walkPairs_eq_visit _ es
end

mutual
/-- The value walk is the literal Rust loop: a fold of `addObject`
over the reported dependencies. -/
theorem walkVal_eq_deps : ∀ (s : PDFWrite) (v : PVal),
    PDFWrite.walkVal s v = (PVal.deps v).foldl PDFWrite.addObject s
  | _, .pnat _ => rfl
  | _, .pname _ => rfl
  | s, .parr xs => walkList_eq_deps s xs
  | s, .pdict es => walkPairs_eq_deps s es
  | s, .pstream meta _ => walkPairs_eq_deps s meta
  | s, .pobj (.direct v) => walkVal_eq_deps s v
  | _, .pobj (.indirect _ _ _) => rfl

/-- List version of `walkVal_eq_deps`. -/
theorem walkList_eq_deps : ∀ (s : PDFWrite) (xs : List PVal),
    PDFWrite.walkList s xs = (PVal.depsList xs).foldl PDFWrite.addObject s
  | _, [] => rfl
  | s, v :: vs => by
    rw [PDFWrite.walkList, PVal.depsList, List.foldl_append, ← walkVal_eq_deps s v]
    exact walkList_eq_deps _ vs

/-- Entry version of `walkVal_eq_deps`. -/
theorem walkPairs_eq_deps : ∀ (s : PDFWrite) (es : List (String × PVal)),
    PDFWrite.walkPairs s es = (PVal.depsPairs es).foldl PDFWrite.addObject s
  | _, [] => rfl
  | s, (_, v) :: es => by
    rw [PDFWrite.walkPairs, PVal.depsPairs, List.foldl_append, ← walkVal_eq_deps s v]
    exact walkPairs_eq_deps _ es
end

/-- `PDFWrite::add_object` has exactly the shape of the Rust source:
attempt the assignment step on the node, then fold `add_object` over
the dependencies the node reports. -/
theorem addObject_eq_foldl_deps (s : PDFWrite) (o : ObjRef) :
    PDFWrite.addObject s o = (o.dependentObjects).foldl PDFWrite.addObject (PDFWrite.step s o) := by
  cases o with
  | direct v =>
    rw [PDFWrite.addObject, ObjRef.dependentObjects, ObjRef.val]
    exact walkVal_eq_deps _ v
  | indirect id g v =>
    rw [PDFWrite.addObject, ObjRef.dependentObjects, ObjRef.val]
    exact walkVal_eq_deps _ v

mutual
/-- The identities visited by a registration are exactly the
reachable indirect identities of the node. -/
theorem idsOf_visitObj : ∀ (o : ObjRef), idsOf (visitObj o) = ObjRef.indirectIds o
  | .direct v => by
    rw [visitObj, ObjRef.indirectIds, idsOf, List.filterMap_cons]
    exact idsOf_visitVal v
  | .indirect id g v => by
    rw [visitObj, ObjRef.indirectIds, idsOf, List.filterMap_cons]
    simp only [ObjRef.idOf]
    rw [← idsOf_visitVal v]
    rfl

/-- Value version of `idsOf_visitObj`. -/
theorem idsOf_visitVal : ∀ (v : PVal), idsOf (visitVal v) = PVal.indirectIds v
  | .pnat _ => rfl
  | .pname _ => rfl
  | .parr xs => idsOf_visitList xs
  | .pdict es => idsOf_visitPairs es
  | .pstream meta _ => idsOf_visitPairs meta
  | .pobj (.direct v) => idsOf_visitVal v
  | .pobj (.indirect id g v) => idsOf_visitObj (.indirect id g v)

/-- List version of `idsOf_visitObj`. -/
theorem idsOf_visitList : ∀ (xs : List PVal), idsOf (visitList xs) = PVal.indirectIdsList xs
  | [] => rfl
  | v :: vs => by
    rw [visitList, PVal.indirectIdsList, idsOf, List.filterMap_append]
    rw [← idsOf_visitVal v, ← idsOf_visitList vs]
    rfl

/-- Entry version of `idsOf_visitObj`. -/
theorem idsOf_visitPairs : ∀ (es : List (String × PVal)), idsOf (visitPairs es) = PVal.indirectIdsPairs es
  | [] => rfl
  | (_, v) :: es => by
    rw [visitPairs, PVal.indirectIdsPairs, idsOf, List.filterMap_append]
    rw [← idsOf_visitVal v, ← idsOf_visitPairs es]
    rfl
end

/-- A direct node leaves the writer state untouched. -/
theorem step_direct (s : PDFWrite) (v : PVal) : PDFWrite.step s (.direct v) = s := rfl

/-- A node whose identity cell is already set leaves the writer state
untouched. -/
theorem step_assigned {s : PDFWrite} {id : NodeId} {g : Nat} {v : PVal} {m : Nat}
    (h : s.assign.lookup id = some m) : PDFWrite.step s (.indirect id g v) = s := by
  simp [PDFWrite.step, ObjRef.assignNum, h]

/-- A node whose identity cell is unset is assigned the current
counter and appended to the write list. -/
theorem step_unassigned {s : PDFWrite} {id : NodeId} {g : Nat} {v : PVal}
    (h : s.assign.lookup id = none) :
    PDFWrite.step s (.indirect id g v) =
      { s with assign := (id, s.curNum) :: s.assign,
               objects := s.objects ++ [.indirect id g v],
               curNum := s.curNum + 1 } := by
  simp [PDFWrite.step, ObjRef.assignNum, h]

/-- The assignment step never unassigns or renumbers an identity. -/
theorem step_assign_mono {s : PDFWrite} {o : ObjRef} {id : NodeId} {n : Nat}
    (h : s.assign.lookup id = some n) :
    (PDFWrite.step s o).assign.lookup id = some n := by
  cases o with
  | direct v => exact h
  | indirect id0 g v =>
    cases h0 : s.assign.lookup id0 with
    | some m => rw [step_assigned h0]; exact h
    | none =>
      rw [step_unassigned h0]
      have hne : (id == id0) = false := by
        simp only [beq_eq_false_iff_ne, ne_eq]
        intro e
        rw [e, h0] at h
        exact Option.noConfusion h
      simp [List.lookup_cons, hne, h]

/-- Folded version of `step_assign_mono`. -/
theorem foldl_step_assign_mono : ∀ (l : List ObjRef) (s : PDFWrite) {id : NodeId} {n : Nat},
    s.assign.lookup id = some n → ((l.foldl PDFWrite.step s).assign.lookup id = some n)
  | [], _, _, _, h => h
  | _ :: l, _, _, _, h => foldl_step_assign_mono l _ (step_assign_mono h)

/-- After the assignment step, an identity is set iff it was set
before or the step's node is indirect with that identity. -/
theorem step_assign_isSome (s : PDFWrite) (o : ObjRef) (id : NodeId) :
    (((PDFWrite.step s o).assign.lookup id).isSome = true) ↔
      ((s.assign.lookup id).isSome = true ∨ o.idOf = some id) := by
  cases o with
  | direct v => simp [step_direct, ObjRef.idOf]
  | indirect id0 g v =>
    cases h0 : s.assign.lookup id0 with
    | some m =>
      rw [step_assigned h0]
      simp only [ObjRef.idOf, Option.some_inj]
      constructor
      · exact Or.inl
      · rintro (h | h)
        · exact h
        · rw [← h, h0]; rfl
    | none =>
      rw [step_unassigned h0]
      simp only [ObjRef.idOf, Option.some_inj, List.lookup_cons]
      by_cases he : id = id0
      · subst he
        simp
      · have hne : (id == id0) = false := by simp [he]
        simp [hne, he, Ne.symm he]

/-- After folding the assignment step over a trace, an identity is
set iff it was set before or appears among the trace's indirect
identities. -/
theorem foldl_step_assign_isSome : ∀ (l : List ObjRef) (s : PDFWrite) (id : NodeId),
    ((((l.foldl PDFWrite.step s).assign.lookup id).isSome = true) ↔
      ((s.assign.lookup id).isSome = true ∨ id ∈ idsOf l))
  | [], s, id => by simp [idsOf]
  | o :: l, s, id => by
    rw [List.foldl_cons, foldl_step_assign_isSome l _ id, step_assign_isSome]
    simp only [idsOf, List.filterMap_cons]
    cases ho : o.idOf with
    | none => simp [idsOf]
    | some j =>
      simp only [List.mem_cons, idsOf, Option.some_inj]
      constructor
      · rintro ((h | h) | h)
        · exact Or.inl h
        · exact Or.inr (Or.inl (by rw [h]))
        · exact Or.inr (Or.inr h)
      · rintro (h | h | h)
        · exact Or.inl (Or.inl h)
        · exact Or.inl (Or.inr (by rw [h]))
        · exact Or.inr h

/-- Folding the assignment step over a trace whose indirect
identities are all already set is a no-op. -/
theorem foldl_step_noop : ∀ (l : List ObjRef) (s : PDFWrite),
    (∀ id ∈ idsOf l, (s.assign.lookup id).isSome = true) → l.foldl PDFWrite.step s = s
  | [], _, _ => rfl
  | o :: l, s, h => by
    have hstep : PDFWrite.step s o = s := by
      cases o with
      | direct v => exact step_direct s v
      | indirect id0 g v =>
        have : id0 ∈ idsOf (ObjRef.indirect id0 g v :: l) := by
          simp [idsOf, List.filterMap_cons, ObjRef.idOf]
        have hs := h id0 this
        cases h0 : s.assign.lookup id0 with
        | none => rw [h0] at hs; exact absurd hs (by simp)
        | some m => exact step_assigned h0
    rw [List.foldl_cons, hstep]
    exact foldl_step_noop l s (fun id hid => h id (by
      simp only [idsOf, List.filterMap_cons]
      cases ho : o.idOf
      · exact hid
      · exact List.mem_cons_of_mem _ hid))

/-- Folding the assignment step only appends to the write list. -/
theorem foldl_step_objects : ∀ (l : List ObjRef) (s : PDFWrite),
    ∃ rest, (l.foldl PDFWrite.step s).objects = s.objects ++ rest
  | [], s => ⟨[], by simp⟩
  | o :: l, s => by
    obtain ⟨rest, hrest⟩ := foldl_step_objects l (PDFWrite.step s o)
    cases o with
    | direct v => exact ⟨rest, by rw [List.foldl_cons, hrest, step_direct]⟩
    | indirect id0 g v =>
      cases h0 : s.assign.lookup id0 with
      | some m => exact ⟨rest, by rw [List.foldl_cons, hrest, step_assigned h0]⟩
      | none =>
        refine ⟨.indirect id0 g v :: rest, ?_⟩
        rw [List.foldl_cons, hrest, step_unassigned h0]
        simp

/-- The assignment step preserves the writer invariant. -/
theorem step_Inv {s : PDFWrite} (o : ObjRef) (h : s.Inv) : (PDFWrite.step s o).Inv := by
  cases o with
  | direct v => rw [step_direct]; exact h
  | indirect id0 g v =>
    cases h0 : s.assign.lookup id0 with
    | some m => rw [step_assigned h0]; exact h
    | none =>
      rw [step_unassigned h0]
      obtain ⟨hind, hnd, hiff⟩ := h
      have hids : idsOf (s.objects ++ [ObjRef.indirect id0 g v]) = s.objIds ++ [id0] := by
        simp [idsOf, List.filterMap_append, PDFWrite.objIds, ObjRef.idOf]
      have hid0 : id0 ∉ s.objIds := by
        intro hmem
        have := (hiff id0).mp hmem
        rw [h0] at this
        exact absurd this (by simp)
      refine ⟨?_, ?_, ?_⟩
      · intro o' ho'
        simp only at ho'
        rcases List.mem_append.mp ho' with h' | h'
        · exact hind o' h'
        · rcases List.mem_singleton.mp h' with rfl
          rfl
      · show idsOf (s.objects ++ [ObjRef.indirect id0 g v]) |>.Nodup
        rw [hids, (List.perm_append_singleton _ _).nodup_iff, List.nodup_cons]
        exact ⟨hid0, hnd⟩
      · intro id
        show id ∈ idsOf (s.objects ++ [ObjRef.indirect id0 g v]) ↔ _
        rw [hids]
        by_cases he : id = id0
        · subst he
          simp [List.lookup_cons]
        · have hne : (id == id0) = false := by simp [he]
          rw [List.lookup_cons, hne]
          simp only [List.mem_append, List.mem_singleton, he, or_false]
          exact hiff id

/-- Folded version of `step_Inv`. -/
theorem foldl_step_Inv : ∀ (l : List ObjRef) (s : PDFWrite), s.Inv → (l.foldl PDFWrite.step s).Inv
  | [], _, h => h
  | o :: l, _, h => foldl_step_Inv l _ (step_Inv o h)

/-- The fresh writer satisfies the invariant. -/
theorem new_Inv : PDFWrite.new.Inv := by
  refine ⟨?_, ?_, ?_⟩ <;> simp [PDFWrite.new, PDFWrite.objIds, idsOf]

/-- Registration never unassigns or renumbers an identity. -/
theorem addObject_assign_mono {s : PDFWrite} {o : ObjRef} {id : NodeId} {n : Nat}
    (h : s.assign.lookup id = some n) : ((s.addObject o).assign.lookup id = some n) := by
  rw [addObject_eq_visit]
  exact foldl_step_assign_mono _ _ h

/-- After registering a node, an identity is assigned iff it was
already assigned or is reachable from the node. -/
theorem addObject_assign_isSome (s : PDFWrite) (o : ObjRef) (id : NodeId) :
    (((s.addObject o).assign.lookup id).isSome = true) ↔
      ((s.assign.lookup id).isSome = true ∨ id ∈ o.indirectIds) := by
  rw [addObject_eq_visit, foldl_step_assign_isSome, idsOf_visitObj]

/-- Registering a node all of whose reachable identities are already
assigned is a no-op. -/
theorem addObject_noop {s : PDFWrite} {o : ObjRef}
    (h : ∀ id ∈ o.indirectIds, (s.assign.lookup id).isSome = true) : s.addObject o = s := by
  rw [addObject_eq_visit]
  exact foldl_step_noop _ _ (by rw [idsOf_visitObj]; exact h)

/-- Registration is idempotent. -/
theorem addObject_idem (s : PDFWrite) (o : ObjRef) :
    (s.addObject o).addObject o = s.addObject o :=
  addObject_noop (fun id hid => (addObject_assign_isSome s o id).mpr (Or.inr hid))

/-- Registration preserves the writer invariant. -/
theorem addObject_Inv {s : PDFWrite} (o : ObjRef) (h : s.Inv) : (s.addObject o).Inv := by
  rw [addObject_eq_visit]
  exact foldl_step_Inv _ _ h

/-- Registration only appends to the write list. -/
theorem addObject_objects (s : PDFWrite) (o : ObjRef) :
    ∃ rest, (s.addObject o).objects = s.objects ++ rest := by
  rw [addObject_eq_visit]
  exact foldl_step_objects _ _

/-- Folding `addObject` over a list of roots equals folding the
assignment step over the concatenated visit traces. -/
theorem foldl_addObject_eq_visit : ∀ (roots : List ObjRef) (s : PDFWrite),
    roots.foldl PDFWrite.addObject s = ((roots.map visitObj).flatten).foldl PDFWrite.step s
  | [], _ => rfl
  | o :: roots, s => by
    rw [List.foldl_cons, List.map_cons, List.flatten_cons, List.foldl_append,
      ← addObject_eq_visit]
    exact foldl_addObject_eq_visit roots _

/-- Membership in the indirect identities of a concatenation. -/
theorem idsOf_flatten_mem (L : List (List ObjRef)) (id : NodeId) :
    id ∈ idsOf L.flatten ↔ ∃ l ∈ L, id ∈ idsOf l := by
  simp only [idsOf, List.mem_filterMap, List.mem_flatten]
  constructor
  · rintro ⟨o, ⟨l, hl, ho⟩, hid⟩
    exact ⟨l, hl, o, ho, hid⟩
  · rintro ⟨l, hl, o, ho, hid⟩
    exact ⟨o, ⟨l, hl, ho⟩, hid⟩

/-- A write list of indirect nodes has as many nodes as indirect
identities. -/
theorem length_idsOf : ∀ (l : List ObjRef), (∀ o ∈ l, o.isIndirect = true) →
    (idsOf l).length = l.length
  | [], _ => rfl
  | o :: l, h => by
    cases o with
    | direct v => exact absurd (h _ (List.mem_cons_self _ _)) (by simp [ObjRef.isIndirect])
    | indirect id g v =>
      simp only [idsOf, List.filterMap_cons, ObjRef.idOf, List.length_cons]
      have hl := length_idsOf l (fun o ho => h o (List.mem_cons_of_mem _ ho))
      simp only [idsOf] at hl
      rw [hl]

/-- C3 first-call effect, stated on the writer state. -/
theorem addObject_first_call {s : PDFWrite} {id : NodeId} {g : Nat} {v : PVal}
    (h : s.assign.lookup id = none) :
    (s.addObject (.indirect id g v)).assign.lookup id = some s.curNum ∧
      ∃ rest, (s.addObject (.indirect id g v)).objects = s.objects ++ .indirect id g v :: rest := by
  rw [addObject_eq_visit, visitObj, List.foldl_cons, step_unassigned h]
  constructor
  · exact foldl_step_assign_mono _ _ (by simp [List.lookup_cons])
  · obtain ⟨rest, hrest⟩ := foldl_step_objects (visitVal v) _
    exact ⟨rest, by rw [hrest]; simp⟩

/-! ## The claims -/

/-- C3: for every node and every sequence of `add_object` calls on
that node, only the first call binds an identity (the writer's next
sequential number; the fresh writer's counter starts at 1) and
appends the node to the write list; every subsequent call is a no-op
leaving the writer state unchanged, and every call returns the node
it was given. -/
theorem claim_C3_register_idempotent (s : PDFWrite) (o : ObjRef) (id : NodeId) (g : Nat) (v : PVal) :
    PDFWrite.new.curNum = 1 ∧
    PDFWrite.addObjectRet s o = (o, s.addObject o) ∧
    (o = .indirect id g v → s.assign.lookup id = none →
      ((s.addObject o).assign.lookup id = some s.curNum ∧
       ∃ rest, (s.addObject o).objects = s.objects ++ o :: rest)) ∧
    (s.addObject o).addObject o = s.addObject o ∧
    (s.addObject o).addObjectRet o = (o, (s.addObject o).addObject o) := by
  refine ⟨rfl, rfl, ?_, addObject_idem s o, rfl⟩
  rintro rfl h
  exact addObject_first_call h

/-- Witness for C3 at a concrete writer and node. -/
theorem claim_C3_register_idempotent_witness :
    PDFWrite.new.curNum = 1 ∧
    ((PDFWrite.new.addObject (.indirect 5 0 (.pnat 1))).assign.lookup 5 =
        some PDFWrite.new.curNum ∧
      ∃ rest, (PDFWrite.new.addObject (.indirect 5 0 (.pnat 1))).objects =
        PDFWrite.new.objects ++ .indirect 5 0 (.pnat 1) :: rest) ∧
    (PDFWrite.new.addObject (.indirect 5 0 (.pnat 1))).addObject (.indirect 5 0 (.pnat 1)) =
      PDFWrite.new.addObject (.indirect 5 0 (.pnat 1)) := by
  have h := claim_C3_register_idempotent PDFWrite.new (.indirect 5 0 (.pnat 1)) 5 0 (.pnat 1)
  exact ⟨h.1, h.2.2.1 rfl rfl, h.2.2.2.1⟩

/-- C4: registration is transitive over reported dependencies; after
any sequence of registrations from a fresh writer, an identity is on
the write list iff it is reachable from one of the registered roots,
no identity is on the write list twice, every listed node is
indirect, the number of emitted objects equals the number of distinct
reachable indirect identities (not the number of registration calls),
and a previously assigned identity is never renumbered. -/
theorem claim_C4_transitive_registration (roots : List ObjRef) :
    (∀ id : NodeId, id ∈ (roots.foldl PDFWrite.addObject PDFWrite.new).objIds ↔
      ∃ r ∈ roots, id ∈ r.indirectIds) ∧
    (roots.foldl PDFWrite.addObject PDFWrite.new).objIds.Nodup ∧
    (∀ o ∈ (roots.foldl PDFWrite.addObject PDFWrite.new).objects, o.isIndirect = true) ∧
    (roots.foldl PDFWrite.addObject PDFWrite.new).objects.length =
      ((roots.map ObjRef.indirectIds).flatten).dedup.length ∧
    (∀ (q : PDFWrite) (o : ObjRef) (id : NodeId) (n : Nat),
      q.assign.lookup id = some n → (q.addObject o).assign.lookup id = some n) := by
  have hInv : (roots.foldl PDFWrite.addObject PDFWrite.new).Inv := by
    rw [foldl_addObject_eq_visit]
    exact foldl_step_Inv _ _ new_Inv
  obtain ⟨hind, hnd, hiff⟩ := hInv
  have hmem : ∀ id : NodeId, id ∈ (roots.foldl PDFWrite.addObject PDFWrite.new).objIds ↔
      ∃ r ∈ roots, id ∈ r.indirectIds := by
    intro id
    rw [hiff id, foldl_addObject_eq_visit, foldl_step_assign_isSome]
    have hnone : ((PDFWrite.new.assign.lookup id).isSome = true) = False := by
      simp [PDFWrite.new]
    rw [hnone, false_or, idsOf_flatten_mem]
    constructor
    · rintro ⟨l, hl, hid⟩
      obtain ⟨r, hr, rfl⟩ := List.mem_map.mp hl
      exact ⟨r, hr, (idsOf_visitObj r) ▸ hid⟩
    · rintro ⟨r, hr, hid⟩
      exact ⟨visitObj r, List.mem_map.mpr ⟨r, hr, rfl⟩, (idsOf_visitObj r) ▸ hid⟩
  refine ⟨hmem, hnd, hind, ?_, fun _ _ _ _ h => addObject_assign_mono h⟩
  have h1 : (roots.foldl PDFWrite.addObject PDFWrite.new).objects.length =
      (roots.foldl PDFWrite.addObject PDFWrite.new).objIds.length :=
    (length_idsOf _ hind).symm
  have h2 : (roots.foldl PDFWrite.addObject PDFWrite.new).objIds.toFinset =
      ((roots.map ObjRef.indirectIds).flatten).toFinset := by
    apply Finset.ext
    intro id
    rw [List.mem_toFinset, List.mem_toFinset, hmem id, List.mem_flatten]
    constructor
    · rintro ⟨r, hr, hid⟩
      exact ⟨r.indirectIds, List.mem_map.mpr ⟨r, hr, rfl⟩, hid⟩
    · rintro ⟨l, hl, hid⟩
      obtain ⟨r, hr, rfl⟩ := List.mem_map.mp hl
      exact ⟨r, hr, hid⟩
  have h3 : ((roots.map ObjRef.indirectIds).flatten).toFinset =
      ((roots.map ObjRef.indirectIds).flatten).dedup.toFinset := by
    apply Finset.ext
    intro a
    simp [List.mem_toFinset, List.mem_dedup]
  rw [h1, ← List.toFinset_card_of_nodup hnd, h2, h3,
    List.toFinset_card_of_nodup (List.nodup_dedup _)]

/-- Witness for C4: three registration calls (the third a
re-registration of a dependency already registered transitively)
yield exactly two objects — the number of distinct reachable
indirect identities — with no duplicate identity, and the shared
dependency is not renumbered. -/
theorem claim_C4_transitive_registration_witness :
    (([ObjRef.indirect 100 0 (.pdict [("Kid", .pobj exNode2)]), exNode2, exNode2].foldl
        PDFWrite.addObject PDFWrite.new).objects.length =
      (([ObjRef.indirect 100 0 (.pdict [("Kid", .pobj exNode2)]), exNode2, exNode2].map
          ObjRef.indirectIds).flatten).dedup.length) ∧
    ([ObjRef.indirect 100 0 (.pdict [("Kid", .pobj exNode2)]), exNode2, exNode2].foldl
        PDFWrite.addObject PDFWrite.new).objIds.Nodup ∧
    (200 ∈ ([ObjRef.indirect 100 0 (.pdict [("Kid", .pobj exNode2)]), exNode2, exNode2].foldl
        PDFWrite.addObject PDFWrite.new).objIds) ∧
    ((PDFWrite.new.addObject (.indirect 100 0 (.pdict [("Kid", .pobj exNode2)]))).addObject
        exNode2).assign.lookup 200 = some 2 := by
  have h := claim_C4_transitive_registration
    [ObjRef.indirect 100 0 (.pdict [("Kid", .pobj exNode2)]), exNode2, exNode2]
  refine ⟨h.2.2.2.1, h.2.1, ?_, ?_⟩
  · exact (h.1 200).mpr ⟨exNode2, by simp, by decide⟩
  · exact h.2.2.2.2 (PDFWrite.new.addObject (.indirect 100 0 (.pdict [("Kid", .pobj exNode2)])))
      exNode2 200 2 (by decide)

/-- C7: assigning an identity fails with `DirectObject` on a direct
node and with `AlreadyAssigned` on a node whose identity is already
set, leaving the cell contents unchanged in both error cases;
otherwise it succeeds and sets exactly this one identity. -/
theorem claim_C7_assign_once (σ : Assign) (o : ObjRef) (n : Nat) :
    (∀ v, o = .direct v → ObjRef.assignNum σ o n = (Except.error ObjError.directObject, σ)) ∧
    (∀ id g v m, o = .indirect id g v → σ.lookup id = some m →
      ObjRef.assignNum σ o n = (Except.error ObjError.alreadyAssigned, σ)) ∧
    (∀ id g v, o = .indirect id g v → σ.lookup id = none →
      (ObjRef.assignNum σ o n = (Except.ok (), (id, n) :: σ) ∧
       ((id, n) :: σ).lookup id = some n ∧
       (∀ id2, id2 ≠ id → ((id, n) :: σ).lookup id2 = σ.lookup id2))) := by
  refine ⟨?_, ?_, ?_⟩
  · rintro v rfl
    rfl
  · rintro id g v m rfl h
    simp [ObjRef.assignNum, h]
  · rintro id g v rfl h
    refine ⟨by simp [ObjRef.assignNum, h], by simp [List.lookup_cons], ?_⟩
    intro id2 hne
    have hb : (id2 == id) = false := by simp [hne]
    rw [List.lookup_cons, hb]

/-- Witness for C7 at concrete cells and nodes. -/
theorem claim_C7_assign_once_witness :
    ObjRef.assignNum [] (.direct (.pnat 0)) 5 = (Except.error ObjError.directObject, []) ∧
    ObjRef.assignNum [(4, 2)] (.indirect 4 0 (.pnat 0)) 5 =
      (Except.error ObjError.alreadyAssigned, [(4, 2)]) ∧
    ObjRef.assignNum [] (.indirect 4 0 (.pnat 0)) 5 = (Except.ok (), [(4, 5)]) ∧
    ([(4, 5)] : Assign).lookup 4 = some 5 ∧
    ([(4, 5)] : Assign).lookup 7 = ([] : Assign).lookup 7 := by
  refine ⟨(claim_C7_assign_once [] (.direct (.pnat 0)) 5).1 _ rfl,
    (claim_C7_assign_once [(4, 2)] (.indirect 4 0 (.pnat 0)) 5).2.1 4 0 (.pnat 0) 2 rfl rfl,
    ?_, ?_, ?_⟩
  · exact ((claim_C7_assign_once [] (.indirect 4 0 (.pnat 0)) 5).2.2 4 0 (.pnat 0) rfl rfl).1
  · exact ((claim_C7_assign_once [] (.indirect 4 0 (.pnat 0)) 5).2.2 4 0 (.pnat 0) rfl rfl).2.1
  · exact ((claim_C7_assign_once [] (.indirect 4 0 (.pnat 0)) 5).2.2 4 0 (.pnat 0) rfl rfl).2.2 7
      (by decide)

/-- C10: serializing a reference to an indirect node panics if its
identity is unassigned; once the node has been registered with the
writer its identity is assigned and the reference output is exactly
the token `"num gen R"`; a direct node writes its full value
inline. -/
theorem claim_C10_reference_serialization (ord : List (List Byte) → List (List Byte))
    (σ : Assign) (id : NodeId) (g : Nat) (v w : PVal) :
    (σ.lookup id = none → PVal.write ord σ (.pobj (.indirect id g v)) = none) ∧
    (∀ n, σ.lookup id = some n →
      PVal.write ord σ (.pobj (.indirect id g v)) =
        some (ascii (Nat.repr n ++ " " ++ Nat.repr g ++ " R"))) ∧
    (PVal.write ord σ (.pobj (.direct w)) = PVal.write ord σ w) ∧
    (∀ s : PDFWrite, ∃ n, (s.addObject (.indirect id g v)).assign.lookup id = some n ∧
      PVal.write ord (s.addObject (.indirect id g v)).assign (.pobj (.indirect id g v)) =
        some (ascii (Nat.repr n ++ " " ++ Nat.repr g ++ " R"))) := by
  refine ⟨?_, ?_, rfl, ?_⟩
  · intro h
    simp [PVal.write, PVal.writeObjRef, h]
  · intro n h
    simp [PVal.write, PVal.writeObjRef, h]
  · intro s
    have hsome : (((s.addObject (.indirect id g v)).assign.lookup id).isSome = true) :=
      (addObject_assign_isSome s _ id).mpr (Or.inr (by
        rw [ObjRef.indirectIds]; exact List.mem_cons_self _ _))
    obtain ⟨n, hn⟩ := Option.isSome_iff_exists.mp hsome
    exact ⟨n, hn, by simp [PVal.write, PVal.writeObjRef, hn]⟩

/-- Witness for C10 at a concrete node and writer. -/
theorem claim_C10_reference_serialization_witness :
    (PVal.write ordId [] (.pobj (.indirect 8 3 (.pnat 0))) = none) ∧
    (PVal.write ordId [(8, 2)] (.pobj (.indirect 8 3 (.pnat 0))) =
      some (ascii (Nat.repr 2 ++ " " ++ Nat.repr 3 ++ " R"))) ∧
    (PVal.write ordId [] (.pobj (.direct (.pnat 6))) = PVal.write ordId [] (.pnat 6)) ∧
    (∃ n, (PDFWrite.new.addObject (.indirect 8 3 (.pnat 0))).assign.lookup 8 = some n ∧
      PVal.write ordId (PDFWrite.new.addObject (.indirect 8 3 (.pnat 0))).assign
          (.pobj (.indirect 8 3 (.pnat 0))) =
        some (ascii (Nat.repr n ++ " " ++ Nat.repr 3 ++ " R"))) := by
  have h := claim_C10_reference_serialization ordId [] 8 3 (.pnat 0) (.pnat 6)
  have h2 := claim_C10_reference_serialization ordId [(8, 2)] 8 3 (.pnat 0) (.pnat 6)
  exact ⟨h.1 rfl, h2.2.1 2 rfl, h.2.2.1, h.2.2.2 PDFWrite.new⟩

/-- Rendering distributes over concatenation of drawable
sequences. -/
theorem renderAll_append : ∀ (s : GraphicState) (ds₁ ds₂ : List Drawable),
    renderAll s (ds₁ ++ ds₂) =
      ((renderAll (renderAll s ds₁).1 ds₂).1,
        (renderAll s ds₁).2 ++ (renderAll (renderAll s ds₁).1 ds₂).2)
  | _, [], _ => by simp [renderAll]
  | s, d :: ds₁, ds₂ => by
    simp only [List.cons_append, renderAll, List.append_eq]
    rw [renderAll_append (GraphicState.update s d).1 ds₁ ds₂]
    simp [List.append_assoc]

/-- C2: over any drawable sequence, the commands of each rendering
step are appended in order; within a step, for each channel (fill and
stroke tracked independently) a color-space-selection command is
emitted iff the requested color's kind differs from the channel's
current kind, the color-set command is emitted for every color
application regardless, and the channel state becomes the new color
(staying unchanged when no color is requested). -/
theorem claim_C2_color_diffing (s st : GraphicState) (ds : List Drawable) (d : Drawable) :
    (renderAll s (ds ++ [d]) =
      ((GraphicState.update (renderAll s ds).1 d).1,
        (renderAll s ds).2 ++ (GraphicState.update (renderAll s ds).1 d).2)) ∧
    (∀ c, d.fillColor = some c →
      ((Cmd.setColorspace c.spaceName false ∈ (GraphicState.update st d).2) ↔
        c.kind ≠ st.fill.kind) ∧
      Cmd.setColor c.ops false ∈ (GraphicState.update st d).2 ∧
      (GraphicState.update st d).1.fill = c) ∧
    (∀ c, d.strokeColor = some c →
      ((Cmd.setColorspace c.spaceName true ∈ (GraphicState.update st d).2) ↔
        c.kind ≠ st.stroke.kind) ∧
      Cmd.setColor c.ops true ∈ (GraphicState.update st d).2 ∧
      (GraphicState.update st d).1.stroke = c) ∧
    (d.fillColor = none → (GraphicState.update st d).1.fill = st.fill) ∧
    (d.strokeColor = none → (GraphicState.update st d).1.stroke = st.stroke) := by
  refine ⟨?_, ?_, ?_, ?_, ?_⟩
  · rw [renderAll_append s ds [d]]
    simp [renderAll]
  · intro c hc
    cases hs : d.strokeColor with
    | none =>
      by_cases hk : c.kind = st.fill.kind <;>
        simp [GraphicState.update, hc, hs, Color.write, hk]
    | some c2 =>
      by_cases hk : c.kind = st.fill.kind <;>
        by_cases hk2 : c2.kind = st.stroke.kind <;>
          simp [GraphicState.update, hc, hs, Color.write, hk, hk2]
  · intro c hc
    cases hf : d.fillColor with
    | none =>
      by_cases hk : c.kind = st.stroke.kind <;>
        simp [GraphicState.update, hc, hf, Color.write, hk]
    | some c2 =>
      by_cases hk : c.kind = st.stroke.kind <;>
        by_cases hk2 : c2.kind = st.fill.kind <;>
          simp [GraphicState.update, hc, hf, Color.write, hk, hk2]
  · intro hc
    cases hs : d.strokeColor <;> simp [GraphicState.update, hc, hs]
  · intro hc
    cases hf : d.fillColor <;> simp [GraphicState.update, hc, hf]

/-- Witness for C2: one drawable carrying an RGB fill (a kind change
against the gray default, so the selection command appears) and a
gray stroke (no kind change, so it does not). -/
theorem claim_C2_color_diffing_witness :
    ((Cmd.setColorspace (Color.deviceRGB 1 0 0).spaceName false ∈
        (GraphicState.update GraphicState.new
          ⟨some (Color.deviceRGB 1 0 0), some (Color.deviceGray (1/2))⟩).2) ↔
      (Color.deviceRGB 1 0 0).kind ≠ GraphicState.new.fill.kind) ∧
    Cmd.setColor (Color.deviceRGB 1 0 0).ops false ∈
      (GraphicState.update GraphicState.new
        ⟨some (Color.deviceRGB 1 0 0), some (Color.deviceGray (1/2))⟩).2 ∧
    ((Cmd.setColorspace (Color.deviceGray (1/2)).spaceName true ∈
        (GraphicState.update GraphicState.new
          ⟨some (Color.deviceRGB 1 0 0), some (Color.deviceGray (1/2))⟩).2) ↔
      (Color.deviceGray (1/2)).kind ≠ GraphicState.new.stroke.kind) ∧
    (GraphicState.update GraphicState.new
      ⟨some (Color.deviceRGB 1 0 0), some (Color.deviceGray (1/2))⟩).1.stroke =
      Color.deviceGray (1/2) := by
  have h := claim_C2_color_diffing GraphicState.new GraphicState.new []
    ⟨some (Color.deviceRGB 1 0 0), some (Color.deviceGray (1/2))⟩
  have hf := h.2.1 (Color.deviceRGB 1 0 0) rfl
  have hs := h.2.2.1 (Color.deviceGray (1/2)) rfl
  exact ⟨hf.1, hf.2.1, hs.1, hs.2.2⟩

/-- C8: writing a document whose root was never set aborts (no
output is produced instead of a trailer lacking `Root`); whenever the
trailer's entry list is produced at all, it contains both `Size` and
`Root`; and a successful write implies the root was set. -/
theorem claim_C8_missing_root :
    (∀ (ord : List (List Byte) → List (List Byte)) (s : PDFWrite),
      s.trailer.root = none → PDFWrite.write ord s = none) ∧
    (∀ (ord : List (List Byte) → List (List Byte)) (σ : Assign) (t : Trailer)
      (es : List (String × List Byte)),
      Trailer.entriesBytes ord σ t = some es →
        ("Size" ∈ es.map Prod.fst ∧ "Root" ∈ es.map Prod.fst)) ∧
    (∀ (ord : List (List Byte) → List (List Byte)) (s : PDFWrite) (out : List Byte),
      PDFWrite.write ord s = some out → s.trailer.root.isSome = true) := by
  have key : ∀ (ord : List (List Byte) → List (List Byte)) (s : PDFWrite),
      s.trailer.root = none → PDFWrite.write ord s = none := by
    intro ord s h
    rw [PDFWrite.write]
    cases hw : writeObjs ord s.assign s.objects CRT.new headerBytes with
    | none => rfl
    | some r =>
      cases r with
      | mk crt out1 =>
        simp only
        rw [Trailer.writeBytes, Trailer.entriesBytes]
        simp [h]
  refine ⟨key, ?_, ?_⟩
  · intro ord σ t es h
    rw [Trailer.entriesBytes] at h
    split at h
    · split at h
      · simp at h
      · split at h
        · split at h
          · simp at h
          · split at h
            · cases h
              simp
            · cases h
              simp
        · split at h
          · cases h
            simp
          · cases h
            simp
    · simp at h
  · intro ord s out h
    cases hr : s.trailer.root with
    | none => rw [key ord s hr] at h; cases h
    | some r => rfl

/-- Witness for C8 at a fresh writer (root never set) and a concrete
trailer. -/
theorem claim_C8_missing_root_witness :
    PDFWrite.write ordId PDFWrite.new = none ∧
    ("Size" ∈ ([("Size", ascii "1"), ("Root", ascii "1 0 R")].map Prod.fst) ∧
     "Root" ∈ ([("Size", ascii "1"), ("Root", ascii "1 0 R")].map Prod.fst)) ∧
    exDoc1.trailer.root.isSome = true := by
  refine ⟨claim_C8_missing_root.1 ordId PDFWrite.new rfl, ?_, ?_⟩
  · exact claim_C8_missing_root.2.1 ordId exDoc1.assign
      { size := some 1, root := some (.indirect 100 0 (.pnat 7)), info := none, idPair := none }
      [("Size", ascii "1"), ("Root", ascii "1 0 R")] (by decide)
  · exact claim_C8_missing_root.2.2 ordId exDoc1
      (headerBytes ++ ascii "1 0 obj\n7endobj\nxref\n0 2\n0000000000 65535 f \n0000000023 00000 n \ntrailer\n<<\n/Size 1\n/Root 1 0 R\n>>\nstartxref\n39\n%%EOF")
      (by decide)

/-- C1 (code evaluation at the failing input): in a document with a
single registered object, the highest assigned object number is 1,
yet the `size` recorded by the cross-reference accumulator — and
therefore the `Size` written into the trailer — is 1 as well, not
1 + 1 = 2 as the claim requires; the full emitted document shows
`/Size 1`. -/
theorem claim_C1_size_evaluation :
    exDoc1.assign = [(100, 1)] ∧
    ((writeObjs ordId exDoc1.assign exDoc1.objects CRT.new headerBytes).map
      (fun p => p.1.getSize)) = some 1 ∧
    PDFWrite.write ordId exDoc1 =
      some (headerBytes ++
        ascii "1 0 obj\n7endobj\nxref\n0 2\n0000000000 65535 f \n0000000023 00000 n \ntrailer\n<<\n/Size 1\n/Root 1 0 R\n>>\nstartxref\n39\n%%EOF") := by
  refine ⟨rfl, by decide, by decide⟩

/-- C9 counterexample: the same fixed document written in two runs
whose hash maps iterate in different (but both legitimate) orders
produces different byte streams. -/
theorem claim_C9_counterexample :
    PDFWrite.write ordId exDoc2 ≠ PDFWrite.write ordRev exDoc2 := by decide

/-- Byte length of an ASCII-encoded string. -/
theorem ascii_length (s : String) : (ascii s).length = s.length := by
  rw [ascii, List.length_map]
  rfl

/-- Length of a flattened interspersion, as a function of the
element lengths. -/
theorem intersperse_flatten_length (sep : List Byte) : ∀ (bs : List (List Byte)),
    ((List.intersperse sep bs).flatten).length =
      (bs.map List.length).sum + sep.length * (bs.length - 1)
  | [] => by simp
  | [a] => by simp
  | a :: b :: t => by
    rw [List.intersperse_cons_cons]
    have ih := intersperse_flatten_length sep (b :: t)
    simp only [List.flatten_cons, List.length_append, List.map_cons, List.sum_cons,
      List.length_cons, Nat.add_sub_cancel] at ih ⊢
    rw [ih]
    ring

/-- Two chunk lists with pointwise equal lengths intersperse to
byte runs of equal length. -/
theorem intersperse_flatten_length_eq (sep : List Byte) {bs₁ bs₂ : List (List Byte)}
    (h : bs₁.map List.length = bs₂.map List.length) :
    ((List.intersperse sep bs₁).flatten).length =
      ((List.intersperse sep bs₂).flatten).length := by
  have hlen : bs₁.length = bs₂.length := by
    have := congrArg List.length h
    simpa using this
  rw [intersperse_flatten_length, intersperse_flatten_length, h, hlen]

/-- Two dictionaries with pointwise length-equal entry chunks
serialize to equal byte counts under any two permutation-valued
iteration orders. -/
theorem dictBytes_length_eq {ord₁ ord₂ : List (List Byte) → List (List Byte)}
    (h₁ : ∀ l, List.Perm (ord₁ l) l) (h₂ : ∀ l, List.Perm (ord₂ l) l)
    {cs₁ cs₂ : List (List Byte)} (h : cs₁.map List.length = cs₂.map List.length) :
    (dictBytes ord₁ cs₁).length = (dictBytes ord₂ cs₂).length := by
  rw [dictBytes, dictBytes]
  simp only [List.length_append, List.length_flatten]
  have e₁ : ((ord₁ cs₁).map List.length).sum = (cs₁.map List.length).sum :=
    ((h₁ cs₁).map List.length).sum_eq
  have e₂ : ((ord₂ cs₂).map List.length).sum = (cs₂.map List.length).sum :=
    ((h₂ cs₂).map List.length).sum_eq
  rw [e₁, e₂, h]

/-- Shape analysis of an equality of mapped byte lengths over
options. -/
theorem opt_len_rel {a b : Option (List Byte)}
    (h : a.map List.length = b.map List.length) :
    (a = none ∧ b = none) ∨
      ∃ x y, a = some x ∧ b = some y ∧ x.length = y.length := by
  cases a <;> cases b <;> simp_all

/-- Shape analysis of an equality of pointwise mapped byte lengths
over options of chunk lists. -/
theorem opt_maplen_rel {a b : Option (List (List Byte))}
    (h : a.map (List.map List.length) = b.map (List.map List.length)) :
    (a = none ∧ b = none) ∨
      ∃ x y, a = some x ∧ b = some y ∧ x.map List.length = y.map List.length := by
  cases a <;> cases b <;> simp_all

mutual
/-- Under any two permutation-valued iteration orders, a value
serializes to byte runs of equal length (and panics in one run iff
it panics in the other). -/
theorem write_len_inv : ∀ (ord₁ ord₂ : List (List Byte) → List (List Byte)),
    (∀ l, List.Perm (ord₁ l) l) → (∀ l, List.Perm (ord₂ l) l) →
    ∀ (σ : Assign) (v : PVal),
    (PVal.write ord₁ σ v).map List.length = (PVal.write ord₂ σ v).map List.length
  | _, _, _, _, _, .pnat _ => rfl
  | _, _, _, _, _, .pname _ => rfl
  | ord₁, ord₂, h₁, h₂, σ, .parr xs => by
    rcases opt_maplen_rel (writeList_len_inv ord₁ ord₂ h₁ h₂ σ xs) with
      ⟨e₁, e₂⟩ | ⟨bs₁, bs₂, e₁, e₂, hl⟩
    · simp [PVal.write, e₁, e₂]
    · have hil := intersperse_flatten_length_eq (ascii " ") hl
      simp [PVal.write, e₁, e₂, List.length_append, hil]
  | ord₁, ord₂, h₁, h₂, σ, .pdict es => by
    rcases opt_maplen_rel (writePairs_len_inv ord₁ ord₂ h₁ h₂ σ es) with
      ⟨e₁, e₂⟩ | ⟨cs₁, cs₂, e₁, e₂, hl⟩
    · simp [PVal.write, e₁, e₂]
    · simp [PVal.write, e₁, e₂, dictBytes_length_eq h₁ h₂ hl]
  | ord₁, ord₂, h₁, h₂, σ, .pstream meta bytes => by
    rcases opt_maplen_rel (writePairs_len_inv ord₁ ord₂ h₁ h₂ σ meta) with
      ⟨e₁, e₂⟩ | ⟨cs₁, cs₂, e₁, e₂, hl⟩
    · simp [PVal.write, e₁, e₂]
    · simp [PVal.write, e₁, e₂, List.length_append, dictBytes_length_eq h₁ h₂ hl]
  | ord₁, ord₂, h₁, h₂, σ, .pobj o => writeObjRef_len_inv ord₁ ord₂ h₁ h₂ σ o

/-- Node-reference version of `write_len_inv`. -/
theorem writeObjRef_len_inv : ∀ (ord₁ ord₂ : List (List Byte) → List (List Byte)),
    (∀ l, List.Perm (ord₁ l) l) → (∀ l, List.Perm (ord₂ l) l) →
    ∀ (σ : Assign) (o : ObjRef),
    (PVal.writeObjRef ord₁ σ o).map List.length = (PVal.writeObjRef ord₂ σ o).map List.length
  | ord₁, ord₂, h₁, h₂, σ, .direct v => write_len_inv ord₁ ord₂ h₁ h₂ σ v
  | _, _, _, _, _, .indirect _ _ _ => rfl

/-- Element-list version of `write_len_inv`. -/
theorem writeList_len_inv : ∀ (ord₁ ord₂ : List (List Byte) → List (List Byte)),
    (∀ l, List.Perm (ord₁ l) l) → (∀ l, List.Perm (ord₂ l) l) →
    ∀ (σ : Assign) (xs : List PVal),
    (PVal.writeList ord₁ σ xs).map (List.map List.length) =
      (PVal.writeList ord₂ σ xs).map (List.map List.length)
  | _, _, _, _, _, [] => rfl
  | ord₁, ord₂, h₁, h₂, σ, v :: vs => by
    rcases opt_len_rel (write_len_inv ord₁ ord₂ h₁ h₂ σ v) with
      ⟨e₁, e₂⟩ | ⟨b₁, b₂, e₁, e₂, hv⟩
    · simp [PVal.writeList, e₁, e₂]
    · rcases opt_maplen_rel (writeList_len_inv ord₁ ord₂ h₁ h₂ σ vs) with
        ⟨f₁, f₂⟩ | ⟨bs₁, bs₂, f₁, f₂, hvs⟩
      · simp [PVal.writeList, e₁, e₂, f₁, f₂]
      · simp [PVal.writeList, e₁, e₂, f₁, f₂, hv, hvs]

/-- Entry-list version of `write_len_inv`. -/
theorem writePairs_len_inv : ∀ (ord₁ ord₂ : List (List Byte) → List (List Byte)),
    (∀ l, List.Perm (ord₁ l) l) → (∀ l, List.Perm (ord₂ l) l) →
    ∀ (σ : Assign) (es : List (String × PVal)),
    (PVal.writePairs ord₁ σ es).map (List.map List.length) =
      (PVal.writePairs ord₂ σ es).map (List.map List.length)
  | _, _, _, _, _, [] => rfl
  | ord₁, ord₂, h₁, h₂, σ, (k, v) :: es => by
    rcases opt_len_rel (write_len_inv ord₁ ord₂ h₁ h₂ σ v) with
      ⟨e₁, e₂⟩ | ⟨b₁, b₂, e₁, e₂, hv⟩
    · simp [PVal.writePairs, e₁, e₂]
    · rcases opt_maplen_rel (writePairs_len_inv ord₁ ord₂ h₁ h₂ σ es) with
        ⟨f₁, f₂⟩ | ⟨cs₁, cs₂, f₁, f₂, hes⟩
      · simp [PVal.writePairs, e₁, e₂, f₁, f₂]
      · simp [PVal.writePairs, e₁, e₂, f₁, f₂, List.length_append, hv, hes]
end

/-- Under any two permutation-valued iteration orders, the object
loop produces the same cross-reference table (all recorded byte
offsets agree) and outputs of equal length. -/
theorem writeObjs_len_inv {ord₁ ord₂ : List (List Byte) → List (List Byte)}
    (h₁ : ∀ l, List.Perm (ord₁ l) l) (h₂ : ∀ l, List.Perm (ord₂ l) l) (σ : Assign) :
    ∀ (os : List ObjRef) (crt : CRT) (out₁ out₂ : List Byte), out₁.length = out₂.length →
      (writeObjs ord₁ σ os crt out₁).map (fun p => (p.1, p.2.length)) =
        (writeObjs ord₂ σ os crt out₂).map (fun p => (p.1, p.2.length))
  | [], crt, out₁, out₂, h => by simp [writeObjs, h]
  | o :: os, crt, out₁, out₂, h => by
    cases o with
    | direct v => rfl
    | indirect id g v =>
      simp only [writeObjs, ObjRef.writeObj]
      rcases hl : σ.lookup id with _ | n
      · rfl
      · rcases opt_len_rel (write_len_inv ord₁ ord₂ h₁ h₂ σ v) with
          ⟨e₁, e₂⟩ | ⟨vb₁, vb₂, e₁, e₂, hv⟩
        · simp [e₁, e₂]
        · simp only [e₁, e₂]
          rw [h]
          exact writeObjs_len_inv h₁ h₂ σ os _ _ _
            (by simp [chunkOf, List.length_append, ascii_length, hv, h])

/-- Under any two permutation-valued iteration orders, the trailer
serializes to byte runs of equal length. -/
theorem trailer_len_inv {ord₁ ord₂ : List (List Byte) → List (List Byte)}
    (h₁ : ∀ l, List.Perm (ord₁ l) l) (h₂ : ∀ l, List.Perm (ord₂ l) l) (σ : Assign)
    (t : Trailer) :
    (Trailer.writeBytes ord₁ σ t).map List.length =
      (Trailer.writeBytes ord₂ σ t).map List.length := by
  have entry_chunks : ∀ (es₁ es₂ : List (String × List Byte)),
      es₁.map Prod.fst = es₂.map Prod.fst →
      es₁.map (fun p => p.2.length) = es₂.map (fun p => p.2.length) →
      ((es₁.map (fun p => ascii ("/" ++ p.1) ++ ascii " " ++ p.2 ++ ascii "\n")).map
          List.length =
        (es₂.map (fun p => ascii ("/" ++ p.1) ++ ascii " " ++ p.2 ++ ascii "\n")).map
          List.length) := by
    intro es₁ es₂ hk hv
    induction es₁ generalizing es₂ with
    | nil => cases es₂ with
      | nil => rfl
      | cons b bs => cases hk
    | cons a as ih =>
      cases es₂ with
      | nil => cases hk
      | cons b bs =>
        simp only [List.map_cons, List.cons.injEq] at hk hv ⊢
        exact ⟨by simp [List.length_append, hk.1, hv.1], ih bs hk.2 hv.2⟩
  rw [Trailer.writeBytes, Trailer.writeBytes, Trailer.entriesBytes, Trailer.entriesBytes]
  rcases ht : t.size with _ | sz
  · rfl
  · rcases hr : t.root with _ | r
    · rfl
    · rcases opt_len_rel (writeObjRef_len_inv ord₁ ord₂ h₁ h₂ σ r) with
        ⟨e₁, e₂⟩ | ⟨rb₁, rb₂, e₁, e₂, hrb⟩
      · simp [e₁, e₂]
      · rcases hi : t.info with _ | i
        · rcases hp : t.idPair with _ | p
          · simp only [e₁, e₂, Option.map_some', Option.some.injEq, List.length_append]
            have hd := dictBytes_length_eq h₁ h₂
              (entry_chunks [("Size", ascii (Nat.repr sz)), ("Root", rb₁)]
                [("Size", ascii (Nat.repr sz)), ("Root", rb₂)] (by simp) (by simp [hrb]))
            omega
          · simp only [e₁, e₂, Option.map_some', Option.some.injEq, List.length_append]
            have hd := dictBytes_length_eq h₁ h₂
              (entry_chunks
                ([("Size", ascii (Nat.repr sz)), ("Root", rb₁)] ++
                  [("ID", ascii ("[" ++ p.1 ++ ", " ++ p.2 ++ "]"))])
                ([("Size", ascii (Nat.repr sz)), ("Root", rb₂)] ++
                  [("ID", ascii ("[" ++ p.1 ++ ", " ++ p.2 ++ "]"))])
                (by simp) (by simp [hrb]))
            omega
        · rcases opt_len_rel (write_len_inv ord₁ ord₂ h₁ h₂ σ i) with
            ⟨g₁, g₂⟩ | ⟨ib₁, ib₂, g₁, g₂, hib⟩
          · simp [e₁, e₂, g₁, g₂]
          · rcases hp : t.idPair with _ | p
            · simp only [e₁, e₂, g₁, g₂, Option.map_some', Option.some.injEq,
                List.length_append]
              have hd := dictBytes_length_eq h₁ h₂
                (entry_chunks
                  ([("Size", ascii (Nat.repr sz)), ("Root", rb₁)] ++ [("Info", ib₁)])
                  ([("Size", ascii (Nat.repr sz)), ("Root", rb₂)] ++ [("Info", ib₂)])
                  (by simp) (by simp [hrb, hib]))
              omega
            · simp only [e₁, e₂, g₁, g₂, Option.map_some', Option.some.injEq,
                List.length_append]
              have hd := dictBytes_length_eq h₁ h₂
                (entry_chunks
                  ([("Size", ascii (Nat.repr sz)), ("Root", rb₁)] ++ [("Info", ib₁)] ++
                    [("ID", ascii ("[" ++ p.1 ++ ", " ++ p.2 ++ "]"))])
                  ([("Size", ascii (Nat.repr sz)), ("Root", rb₂)] ++ [("Info", ib₂)] ++
                    [("ID", ascii ("[" ++ p.1 ++ ", " ++ p.2 ++ "]"))])
                  (by simp) (by simp [hrb, hib]))
              omega

/-- C9 (amended): serialization is deterministic as a function of
the document together with the dictionary iteration orders — two
runs with the same orders coincide byte for byte; moreover, under
any two permutation-valued iteration orders, the runs produce the
same cross-reference table (identical recorded byte offsets) and
outputs of identical total length, so only the ordering of
dictionary entry bytes can differ between runs. -/
theorem claim_C9_amended (s : PDFWrite) (ord₁ ord₂ : List (List Byte) → List (List Byte))
    (h₁ : ∀ l, List.Perm (ord₁ l) l) (h₂ : ∀ l, List.Perm (ord₂ l) l) :
    (ord₁ = ord₂ → PDFWrite.write ord₁ s = PDFWrite.write ord₂ s) ∧
    ((writeObjs ord₁ s.assign s.objects CRT.new headerBytes).map Prod.fst =
      (writeObjs ord₂ s.assign s.objects CRT.new headerBytes).map Prod.fst) ∧
    ((PDFWrite.write ord₁ s).map List.length = (PDFWrite.write ord₂ s).map List.length) := by
  have hw := writeObjs_len_inv h₁ h₂ s.assign s.objects CRT.new headerBytes headerBytes rfl
  refine ⟨fun he => by rw [he], ?_, ?_⟩
  · have := congrArg (Option.map Prod.fst) hw
    simpa [Option.map_map, Function.comp] using this
  · rw [PDFWrite.write, PDFWrite.write]
    rcases o₁ : writeObjs ord₁ s.assign s.objects CRT.new headerBytes with _ | ⟨crt₁, out₁⟩
    · rw [o₁] at hw
      rcases o₂ : writeObjs ord₂ s.assign s.objects CRT.new headerBytes with _ | ⟨crt₂, out₂⟩
      · rfl
      · rw [o₂] at hw
        exact absurd hw (by simp)
    · rw [o₁] at hw
      rcases o₂ : writeObjs ord₂ s.assign s.objects CRT.new headerBytes with _ | ⟨crt₂, out₂⟩
      · rw [o₂] at hw
        exact absurd hw (by simp)
      · rw [o₂] at hw
        simp only [Option.map_some', Option.some.injEq, Prod.mk.injEq] at hw
        obtain ⟨hcrt, hlen⟩ := hw
        subst hcrt
        have ht := trailer_len_inv h₁ h₂ s.assign { s.trailer with size := some crt₁.getSize }
        rcases opt_len_rel ht with ⟨t₁, t₂⟩ | ⟨tb₁, tb₂, t₁, t₂, htb⟩
        · simp [t₁, t₂]
        · simp only [t₁, t₂, Option.map_some', Option.some.injEq, List.length_append,
            ascii_length, hlen, htb]

/-- Witness for C9 (amended) at the dictionary document `exDoc2`
under the identity and the reversing iteration orders. -/
theorem claim_C9_amended_witness :
    ((writeObjs ordId exDoc2.assign exDoc2.objects CRT.new headerBytes).map Prod.fst =
      (writeObjs ordRev exDoc2.assign exDoc2.objects CRT.new headerBytes).map Prod.fst) ∧
    ((PDFWrite.write ordId exDoc2).map List.length =
      (PDFWrite.write ordRev exDoc2).map List.length) ∧
    PDFWrite.write ordId exDoc2 = PDFWrite.write ordId exDoc2 := by
  have h := claim_C9_amended exDoc2 ordId ordRev
    (fun l => List.Perm.refl l) (fun l => List.reverse_perm l)
  have h0 := claim_C9_amended exDoc2 ordId ordId
    (fun l => List.Perm.refl l) (fun l => List.Perm.refl l)
  exact ⟨h.2.1, h.2.2, h0.1 rfl⟩

/-- Decimal digit strings are bounded by the exponent of a bounding
power of ten (auxiliary, by fuel induction over the core loop). -/
theorem toDigitsCore_length_le : ∀ (fuel n : Nat) (ds : List Char) (d : Nat),
    0 < d → n < 10 ^ d → (Nat.toDigitsCore 10 fuel n ds).length ≤ ds.length + d
  | 0, _, ds, d, _, _ => by
    simp only [Nat.toDigitsCore]
    exact Nat.le_add_right _ _
  | fuel + 1, n, ds, d, hd, hn => by
    by_cases h0 : n / 10 = 0
    · simp only [Nat.toDigitsCore, h0, if_true, List.length_cons]
      omega
    · simp only [Nat.toDigitsCore, h0, if_false]
      have hd2 : 2 ≤ d := by
        by_contra hlt
        have hd1 : d = 1 := by omega
        subst hd1
        rw [pow_one] at hn
        exact h0 (Nat.div_eq_of_lt hn)
      have hn2 : n / 10 < 10 ^ (d - 1) := by
        rw [Nat.div_lt_iff_lt_mul (by norm_num)]
        calc n < 10 ^ d := hn
        _ ≤ 10 ^ (d - 1) * 10 := by
            rw [← Nat.pow_succ]
            exact Nat.pow_le_pow_right (by norm_num) (by omega)
      have := toDigitsCore_length_le fuel (n / 10)
        (Nat.digitChar (n % 10) :: ds) (d - 1) (by omega) hn2
      simp only [List.length_cons] at this
      omega

/-- The decimal representation of `n < 10 ^ d` has at most `d`
digits. -/
theorem repr_length_le {n d : Nat} (hd : 0 < d) (h : n < 10 ^ d) :
    (Nat.repr n).length ≤ d := by
  have h2 : (Nat.repr n).length = (Nat.toDigitsCore 10 (n + 1) n []).length := rfl
  rw [h2]
  have := toDigitsCore_length_le (n + 1) n [] d hd h
  simp only [List.length_nil, Nat.zero_add] at this
  exact this

/-- A zero-padded number whose digit string fits the width has
exactly the width. -/
theorem fmtPad_length {w n : Nat} (h : (Nat.repr n).length ≤ w) :
    (fmtPad w n).length = w := by
  show (List.replicate (w - (Nat.repr n).length) '0' ++ (Nat.repr n).data).length = w
  rw [List.length_append, List.length_replicate]
  have : (Nat.repr n).data.length = (Nat.repr n).length := rfl
  omega

/-- A successful object-writing loop only ever appends to the
cross-reference entry list. -/
theorem writeObjs_entries_mono :
    ∀ (ord : List (List Byte) → List (List Byte)) (σ : Assign) (os : List ObjRef)
      (crt : CRT) (out : List Byte) (r : CRT × List Byte),
      writeObjs ord σ os crt out = some r → ∀ e ∈ crt.entries, e ∈ r.1.entries
  | _, _, [], crt, out, r, h => by
    cases h
    exact fun e he => he
  | ord, σ, o :: os, crt, out, r, h => by
    rw [writeObjs] at h
    cases o with
    | direct v => cases h
    | indirect id g v =>
      rw [ObjRef.writeObj] at h
      cases hl : σ.lookup id with
      | none => rw [hl] at h; cases h
      | some n =>
        rw [hl] at h
        cases hw : PVal.write ord σ v with
        | none => rw [hw] at h; cases h
        | some vb =>
          rw [hw] at h
          intro e he
          exact writeObjs_entries_mono ord σ os _ _ r h e
            (by simp [CRT.addEntry, List.mem_append]; exact Or.inl he)

/-- Every entry of the table appears, as its formatted line, inside
the serialized cross-reference section. -/
theorem crt_line_present {c : CRT} {e : CrtEntry} (he : e ∈ c.entries) :
    ∃ pre post, c.writeBytes = pre ++ crtLine e ++ post := by
  have hs : e ∈ c.sortedEntries := by
    rw [CRT.sortedEntries, List.mem_insertionSort]
    exact he
  have hm : crtLine e ∈ c.sortedEntries.map crtLine := List.mem_map_of_mem _ hs
  obtain ⟨s, t, hst⟩ := List.append_of_mem hm
  refine ⟨ascii "xref\n" ++
    ascii (Nat.repr 0 ++ " " ++ Nat.repr c.sortedEntries.length ++ "\n") ++ s.flatten,
    t.flatten, ?_⟩
  rw [CRT.writeBytes, CRT.writePart, hst]
  simp [List.flatten_append, List.append_assoc]

/-- C6: the cross-reference table starts seeded with exactly the
implicit free record (offset 0, number 0, generation 65535, free);
the records present before the object loop survive into the written
table, so the seed's 20-byte line appears in every successfully
written document; the emitted entries are the table's records sorted
in ascending object-number order; and each line is the 10-digit
zero-padded offset, a space, the 5-digit zero-padded generation, a
space, the `f`/`n` flag, a space and a newline — 20 bytes. -/
theorem claim_C6_crt_invariants :
    (CRT.new.entries = [⟨0, 0, 65535, true⟩]) ∧
    (∀ (ord : List (List Byte) → List (List Byte)) (σ : Assign) (os : List ObjRef)
      (crt : CRT) (out : List Byte) (r : CRT × List Byte),
      writeObjs ord σ os crt out = some r → ∀ e ∈ crt.entries, e ∈ r.1.entries) ∧
    (∀ c : CRT, c.sortedEntries.Pairwise (fun a b => a.num ≤ b.num) ∧
      List.Perm c.sortedEntries c.entries) ∧
    (∀ c : CRT, c.writeBytes =
      ascii "xref\n" ++ ascii (Nat.repr 0 ++ " " ++ Nat.repr c.sortedEntries.length ++ "\n") ++
        (c.sortedEntries.map crtLine).flatten) ∧
    (∀ e : CrtEntry, e.offset < 10 ^ 10 → e.gen < 10 ^ 5 →
      ((ascii (fmtPad 10 e.offset)).length = 10 ∧ (ascii (fmtPad 5 e.gen)).length = 5 ∧
       (crtLine e).length = 20)) ∧
    (∀ (ord : List (List Byte) → List (List Byte)) (s : PDFWrite) (out : List Byte),
      PDFWrite.write ord s = some out →
        ∃ pre post, out = pre ++ crtLine ⟨0, 0, 65535, true⟩ ++ post) := by
  refine ⟨rfl, writeObjs_entries_mono, ?_, fun c => rfl, ?_, ?_⟩
  · intro c
    exact ⟨List.sorted_insertionSort _ c.entries, List.perm_insertionSort _ c.entries⟩
  · intro e hoff hgen
    have h10 : (ascii (fmtPad 10 e.offset)).length = 10 := by
      rw [ascii_length]
      exact fmtPad_length (repr_length_le (by norm_num) hoff)
    have h5 : (ascii (fmtPad 5 e.gen)).length = 5 := by
      rw [ascii_length]
      exact fmtPad_length (repr_length_le (by norm_num) hgen)
    refine ⟨h10, h5, ?_⟩
    rw [crtLine]
    cases e.free <;>
      simp [List.length_append, h10, h5, ascii_length] <;> rfl
  · intro ord s out h
    rw [PDFWrite.write] at h
    cases hw : writeObjs ord s.assign s.objects CRT.new headerBytes with
    | none => rw [hw] at h; cases h
    | some r =>
      rw [hw] at h
      cases r with
      | mk crt out1 =>
        simp only at h
        cases ht : Trailer.writeBytes ord s.assign { s.trailer with size := some crt.getSize } with
        | none => rw [ht] at h; cases h
        | some tb =>
          rw [ht] at h
          cases h
          have hseed : (⟨0, 0, 65535, true⟩ : CrtEntry) ∈ crt.entries :=
            writeObjs_entries_mono ord s.assign s.objects CRT.new headerBytes (crt, out1) hw
              _ (by simp [CRT.new])
          obtain ⟨p, q, hpq⟩ := crt_line_present hseed
          refine ⟨out1 ++ p,
            q ++ tb ++ ascii "startxref\n" ++ ascii (Nat.repr out1.length) ++ ascii "\n%%EOF", ?_⟩
          rw [hpq]
          simp [List.append_assoc]

/-- `ObjRef::write_obj` in terms of the per-object data. -/
theorem writeObj_eq_objData (ord : List (List Byte) → List (List Byte)) (σ : Assign)
    (o : ObjRef) (crt : CRT) (pos : Nat) :
    ObjRef.writeObj ord σ o crt pos =
      (objData ord σ o).map
        (fun t => (crt.addEntry pos t.1 t.2.1 false, chunkOf t.1 t.2.1 t.2.2)) := by
  cases o with
  | direct v => rfl
  | indirect id g v =>
    rcases hl : σ.lookup id with _ | n
    · simp [ObjRef.writeObj, objData, hl]
    · rcases hw : PVal.write ord σ v with _ | vb
      · simp [ObjRef.writeObj, objData, hl, hw]
      · simp [ObjRef.writeObj, objData, hl, hw]

/-- The object-writing loop, given the per-object data of every
registered node: the output is the concatenation of the framed
bodies in registration order, and the recorded cross-reference
entries hold exactly the byte offsets at which each body starts. -/
theorem writeObjs_spec (ord : List (List Byte) → List (List Byte)) (σ : Assign)
    {os : List ObjRef} {ts : List (Nat × Nat × List Byte)}
    (hobj : List.Forall₂ (fun o t => objData ord σ o = some t) os ts) :
    ∀ (crt : CRT) (out : List Byte),
      writeObjs ord σ os crt out =
        some ({ entries := crt.entries ++ expEntries out.length ts,
                size := maxNum crt.size ts },
              out ++ (expChunks ts).flatten) := by
  induction hobj with
  | nil =>
    intro crt out
    simp [writeObjs, expEntries, expChunks, maxNum]
  | cons h htail ih =>
    intro crt out
    rw [writeObjs, writeObj_eq_objData, h]
    dsimp only [Option.map]
    rw [ih]
    simp only [CRT.addEntry, expEntries, expChunks, maxNum, List.foldl_cons,
      List.length_append, List.map_cons, List.flatten_cons]
    simp [List.append_assoc]

/-- Offsets recorded by the loop: the `i`-th entry records the base
position plus the total length of the preceding framed bodies. -/
theorem expEntries_offset : ∀ (ts : List (Nat × Nat × List Byte)) (pos i : Nat),
    i < ts.length →
      ((expEntries pos ts)[i]?.map CrtEntry.offset =
        some (pos + (((expChunks ts).take i).flatten).length))
  | [], _, i, hi => absurd hi (by simp)
  | t :: ts, pos, 0, _ => by
    simp [expEntries, expChunks]
  | t :: ts, pos, i + 1, hi => by
    have := expEntries_offset ts (pos + (chunkOf t.1 t.2.1 t.2.2).length) i
      (by simpa using Nat.lt_of_succ_lt_succ hi)
    simp only [expEntries, expChunks, List.map_cons, List.getElem?_cons_succ, List.take_succ_cons,
      List.flatten_cons, List.length_append] at this ⊢
    rw [this]
    congr 1
    omega

/-- C5: a successful document write is exactly: the fixed header;
then every registered node in registration order as
`"num gen obj\n" value "endobj\n"`, each recording the byte offset at
which its frame starts as an in-use cross-reference entry; then the
cross-reference section; then the trailer; then `"startxref"`, the
byte offset at which the cross-reference section started, and the
end-of-file marker. -/
theorem claim_C5_write_layout (ord : List (List Byte) → List (List Byte)) (s : PDFWrite)
    (ts : List (Nat × Nat × List Byte)) (tb : List Byte)
    (hobj : List.Forall₂ (fun o t => objData ord s.assign o = some t) s.objects ts)
    (htr : Trailer.writeBytes ord s.assign
      { s.trailer with size := some (maxNum 0 ts) } = some tb) :
    (PDFWrite.write ord s =
      some (headerBytes ++ (expChunks ts).flatten ++
        CRT.writeBytes { entries := CRT.new.entries ++ expEntries headerBytes.length ts,
                         size := maxNum 0 ts } ++
        tb ++ ascii "startxref\n" ++
        ascii (Nat.repr (headerBytes ++ (expChunks ts).flatten).length) ++ ascii "\n%%EOF")) ∧
    (∀ i : Nat, i < ts.length →
      ((expEntries headerBytes.length ts)[i]?.map CrtEntry.offset =
        some (headerBytes.length + (((expChunks ts).take i).flatten).length))) := by
  constructor
  · rw [PDFWrite.write, writeObjs_spec ord s.assign hobj CRT.new headerBytes]
    simp only
    rw [show CRT.new.size = 0 from rfl, show
      ({ entries := CRT.new.entries ++ expEntries headerBytes.length ts,
         size := maxNum 0 ts } : CRT).getSize = maxNum 0 ts from rfl, htr]
  · exact fun i hi => expEntries_offset ts headerBytes.length i hi

/-- Witness for C5 at the two-object document `exDoc5`. -/
theorem claim_C5_write_layout_witness :
    PDFWrite.write ordId exDoc5 =
      some (headerBytes ++ (expChunks exTs).flatten ++
        CRT.writeBytes { entries := CRT.new.entries ++ expEntries headerBytes.length exTs,
                         size := maxNum 0 exTs } ++
        ascii "trailer\n<<\n/Size 2\n/Root 1 0 R\n>>\n" ++ ascii "startxref\n" ++
        ascii (Nat.repr (headerBytes ++ (expChunks exTs).flatten).length) ++ ascii "\n%%EOF") ∧
    ((expEntries headerBytes.length exTs)[1]?.map CrtEntry.offset =
      some (headerBytes.length + (((expChunks exTs).take 1).flatten).length)) := by
  have h := claim_C5_write_layout ordId exDoc5 exTs
    (ascii "trailer\n<<\n/Size 2\n/Root 1 0 R\n>>\n")
    (List.Forall₂.cons (by decide) (List.Forall₂.cons (by decide) List.Forall₂.nil))
    (by decide)
  exact ⟨h.1, h.2 1 (by decide)⟩

/-- Witness for C6 at the one-object document `exDoc1` and the seed
record. -/
theorem claim_C6_crt_invariants_witness :
    ((ascii (fmtPad 10 23)).length = 10 ∧ (ascii (fmtPad 5 65535)).length = 5 ∧
      (crtLine ⟨23, 1, 65535, false⟩).length = 20) ∧
    (∃ pre post,
      headerBytes ++
        ascii "1 0 obj\n7endobj\nxref\n0 2\n0000000000 65535 f \n0000000023 00000 n \ntrailer\n<<\n/Size 1\n/Root 1 0 R\n>>\nstartxref\n39\n%%EOF" =
        pre ++ crtLine ⟨0, 0, 65535, true⟩ ++ post) := by
  constructor
  · exact claim_C6_crt_invariants.2.2.2.2.1 ⟨23, 1, 65535, false⟩ (by norm_num) (by norm_num)
  · exact claim_C6_crt_invariants.2.2.2.2.2 ordId exDoc1
      (headerBytes ++ ascii "1 0 obj\n7endobj\nxref\n0 2\n0000000000 65535 f \n0000000023 00000 n \ntrailer\n<<\n/Size 1\n/Root 1 0 R\n>>\nstartxref\n39\n%%EOF")
      (by decide)

end SimplePdf
